import Mathlib

/-!
Shallow embedding of `wiki_crawler.cpp` (wiki-crawler) and the properties proved of it.

A `std::string` is a `List Char`; a `size_t` is a `Nat` kept below `2 ^ 64`, with
the wrap-around of `+ 1` and `-` written out.  `std::string::npos` is `2 ^ 64 - 1`.
-/

namespace Scraper

/-- The value `std::string::npos`, the largest `size_t`. -/
def npos : Nat := 2 ^ 64 - 1

/-- Addition of `size_t` values. -/
def sadd (a b : Nat) : Nat := (a + b) % 2 ^ 64

/-- Subtraction of `size_t` values. -/
def ssub (a b : Nat) : Nat := (a + 2 ^ 64 - b % 2 ^ 64) % 2 ^ 64

/-- Scan of `std::string::find`: `i` is the offset of the head of the remaining text. -/
def findAux (pat : List Char) : List Char → Nat → Nat
  | [], i => if pat.isEmpty then i else npos
  | c :: cs, i => if pat.isPrefixOf (c :: cs) then i else findAux pat cs (i + 1)

/-- The call `script.find(pat, pos)`: the least offset `i ≥ pos` at which `pat` occurs,
`npos` when there is none (in particular when `pos` is past the end). -/
def find (script pat : List Char) (pos : Nat) : Nat :=
  if script.length < pos then npos else findAux pat (script.drop pos) pos

/-- The struct `tag` of the parser (`end_` is the field `end`). -/
structure tag where
  start_o : Nat
  start : Nat
  end_ : Nat
  length : Nat
  next : Nat
deriving DecidableEq, Repr

/-- The value-initialised `tag` returned by `return {}`. -/
def tag.empty : tag := ⟨0, 0, 0, 0, 0⟩

/-- The function `StringParser(script, index, str)`. -/
def StringParser (script : List Char) (index : Nat) (str : List Char) : tag :=
  let open_tag := '<' :: str
  let close_tag := '<' :: '/' :: (str ++ ['>'])
  let start_o := find script open_tag index
  if start_o = npos then tag.empty
  else
    let start := sadd (find script ['>'] start_o) 1
    let end0 := find script close_tag start
    let end_ := if end0 = npos then find script ['<'] start else end0
    let length := ssub end_ start
    let next := find script open_tag end_
    ⟨start_o, start, end_, length, next⟩

/-- How a run of a loop model ends: with a value, by a fault (an uncaught exception or
an access outside an object, where the C++ program has no defined continuation), or
with the iteration budget of the model used up. -/
inductive Outcome (α : Type) where
  | done (a : α)
  | fault
  | fuelOut
deriving DecidableEq, Repr

/-- The NUL character that terminates a C string. -/
def NUL : Char := Char.ofNat 0

/-- The call `script.copy(buff + buff_pos, n, pos)`: `none` when `pos` is past the end
of `script` (`std::out_of_range`) or when the copied characters do not fit in `buff`. -/
def copy (script buff : List Char) (buff_pos n pos : Nat) : Option (List Char) :=
  if script.length < pos then none
  else
    let chars := (script.drop pos).take n
    if buff.length < buff_pos + chars.length then none
    else some (buff.take buff_pos ++ chars ++ buff.drop (buff_pos + chars.length))

/-- The `while` loop of `WriteFile` (lines 93-101); the result is the buffer, `buff_pos`
and `start_write` at loop exit. -/
def WriteFile.loop (script : List Char) (t : tag) :
    Nat → List Char → Nat → Nat → Nat → Nat → Option (List Char × Nat × Nat)
  | 0, _, _, _, _, _ => none
  | fuel + 1, buff, buff_pos, start_write, nbs_start, nbs_end =>
    if nbs_start < t.end_ ∧ nbs_end < t.end_ then
      let write_length := ssub nbs_start start_write
      match (if 0 < write_length then copy script buff buff_pos write_length start_write
             else some buff) with
      | none => none
      | some buff1 =>
        WriteFile.loop script t fuel buff1 (sadd buff_pos (ssub nbs_end start_write)) nbs_end
          (find script ['&'] nbs_end) (find script [';'] (find script ['&'] nbs_end))
    else some (buff, buff_pos, start_write)

/-- The function `WriteFile(script, _tag_, filename)`; the result is the text appended to
the file, `none` on a fault.  `junk i` is the byte found in cell `i` of the
uninitialised array `buff` when it is created.  The array and the script are disjoint
objects of one `2 ^ 64`-byte address space, so an array that cannot fit beside the
script is a fault.  The `while` loop makes at most `script.length + 1` passes (from the
second pass on `nbs_end` is an offset of the script that grows strictly), which is the
budget given to it.  `outfile << buff` writes the cells before the first NUL. -/
def WriteFile (junk : Nat → Char) (script : List Char) (t : tag) : Option (List Char) :=
  if t.length = 0 then some []
  else if 2 ^ 64 ≤ script.length + (t.length + 1) then none
  else
    let buff := (List.range (t.length + 1)).map junk
    let nbs_start := find script ['&'] t.start
    let nbs_end := sadd (find script [';'] nbs_start) 1
    match WriteFile.loop script t (script.length + 2) buff 0 t.start nbs_start nbs_end with
    | none => none
    | some (buff1, buff_pos, start_write) =>
      match copy script buff1 buff_pos (ssub t.end_ start_write) start_write with
      | none => none
      | some buff2 => some ((buff2.set t.length NUL).takeWhile (fun c => c != NUL))

/-- The variables of `ParseHTML` that live across iterations: the scan position, the
text appended to the file so far, and the number of inner iterations done. -/
structure PState where
  script_pos : Nat
  out : List Char
  iter : Nat
deriving DecidableEq, Repr

/-- One pass through the body of the inner `do` loop of `ParseHTML` (lines 120-136);
returns `next_tag` and the new state, `none` on a fault in `WriteFile`. -/
def ParseHTML.body (junk : Nat → Nat → Char) (script : List Char) (st : PState) :
    Option (tag × PState) :=
  let next_tag := StringParser script st.script_pos []
  let span := StringParser script st.script_pos "span".toList
  let sup := StringParser script st.script_pos "sup".toList
  let script_pos := next_tag.start
  if script_pos ≠ span.start ∧ script_pos ≠ sup.start then
    match WriteFile (junk st.iter) script next_tag with
    | none => none
    | some w => some (next_tag, ⟨next_tag.end_, st.out ++ w, st.iter + 1⟩)
  else
    let i := StringParser script script_pos "i".toList
    match (if i.start ≠ 0 ∧ i.start < next_tag.end_ then WriteFile (junk st.iter) script i
           else some []) with
    | none => none
    | some w =>
      let p1 := if script_pos = span.start then span.end_ else script_pos
      let p2 := if p1 = sup.start then sup.end_ else p1
      some (next_tag, ⟨p2, st.out ++ w, st.iter + 1⟩)

/-- The inner `do ... while (next_tag.start < paragraph.end)` loop of `ParseHTML`. -/
def ParseHTML.inner (junk : Nat → Nat → Char) (script : List Char) (paragraph : tag) :
    Nat → PState → Outcome PState
  | 0, _ => Outcome.fuelOut
  | fuel + 1, st =>
    match ParseHTML.body junk script st with
    | none => Outcome.fault
    | some (next_tag, st1) =>
      if next_tag.start < paragraph.end_ then ParseHTML.inner junk script paragraph fuel st1
      else Outcome.done st1

/-- The outer `do ... while (paragraph.next != 0)` loop of `ParseHTML`. -/
def ParseHTML.outer (junk : Nat → Nat → Char) (script : List Char) :
    Nat → PState → Outcome (List Char)
  | 0, _ => Outcome.fuelOut
  | fuel + 1, st =>
    let paragraph := StringParser script st.script_pos "p".toList
    match ParseHTML.inner junk script paragraph fuel
        ⟨paragraph.start_o, st.out, st.iter⟩ with
    | Outcome.done st1 =>
      if paragraph.next ≠ 0 then ParseHTML.outer junk script fuel st1
      else Outcome.done st1.out
    | Outcome.fault => Outcome.fault
    | Outcome.fuelOut => Outcome.fuelOut

/-- The function `ParseHTML(script, filename)`: the text appended to the (initially
empty) file.  `fuel` bounds the number of iterations of each loop; `junk k` is the
initial content of `buff` in the `k`-th inner iteration. -/
def ParseHTML (fuel : Nat) (junk : Nat → Nat → Char) (script : List Char) :
    Outcome (List Char) :=
  ParseHTML.outer junk script fuel ⟨0, [], 0⟩

/-- The struct `crawler`: the url and the position at the end of the url. -/
structure crawler where
  url : List Char
  pos : Nat
deriving DecidableEq, Repr

/-- The double quote character. -/
def quote : Char := Char.ofNat 34

/-- The call `script.substr(pos, n)`: `none` is `std::out_of_range`. -/
def substr (script : List Char) (pos n : Nat) : Option (List Char) :=
  if script.length < pos then none else some ((script.drop pos).take n)

/-- The href position chosen by lines 149-153 of `WikiCrawler`. -/
def selectHref (script : List Char) (crawler_pos : Nat) : Nat :=
  let start_table := find script "<table".toList crawler_pos
  let end_table := find script "</table>".toList crawler_pos
  let href := find script "href".toList crawler_pos
  if start_table < href ∧ href < end_table then find script "href".toList end_table
  else href

/-- The function `WikiCrawler(script, crawler_pos)`; `none` when `substr` throws. -/
def WikiCrawler (script : List Char) (crawler_pos : Nat) : Option crawler :=
  let crawler_pos1 := selectHref script crawler_pos
  let start_page_name := sadd (find script [quote] crawler_pos1) 1
  let end_page_name := find script [quote] start_page_name
  match substr script (sadd start_page_name 1)
      (ssub (ssub end_page_name start_page_name) 1) with
  | none => none
  | some page_name =>
    if find script "File:".toList start_page_name < end_page_name then
      some ⟨[], end_page_name⟩
    else if find script "/wiki".toList start_page_name = start_page_name then
      some ⟨page_name, end_page_name⟩
    else some ⟨[], end_page_name⟩

/-- One call of `MPI_Send` by the coordinator: the destination rank and the characters
sent. -/
structure Send where
  dest : Nat
  payload : List Char
deriving DecidableEq, Repr

/-- The `do ... while (_crawler.url.length() == 0)` loop of `main` (lines 194-197). -/
def discover (script : List Char) : Nat → Nat → Outcome crawler
  | 0, _ => Outcome.fuelOut
  | fuel + 1, crawler_pos =>
    match WikiCrawler script crawler_pos with
    | none => Outcome.fault
    | some c => if c.url.length = 0 then discover script fuel c.pos else Outcome.done c

/-- The `for` loop of lines 193-204 with `n` iterations left, the loop counter at `i`.
`recv i` is the rank read by the `MPI_Recv` of iteration `i`.  The message is the C
string of the name, `URL_SIZE` characters; a size that does not fit `int` is a fault. -/
def linkLoop (fuel : Nat) (script : List Char) (recv : Nat → Nat) :
    Nat → Nat → Nat → List Send → Outcome (List Send)
  | 0, _, _, sent => Outcome.done sent
  | n + 1, i, crawler_pos, sent =>
    match discover script fuel crawler_pos with
    | Outcome.done c =>
      if 2 ^ 31 ≤ c.url.length + 1 then Outcome.fault
      else linkLoop fuel script recv n (i + 1) c.pos (sent ++ [⟨recv i, c.url ++ [NUL]⟩])
    | Outcome.fault => Outcome.fault
    | Outcome.fuelOut => Outcome.fuelOut

/-- The termination messages of lines 205-208, one to each rank `1 .. numprocs - 1`. -/
def terminations (numprocs : Nat) : List Send :=
  (List.range (numprocs - 1)).map (fun j => ⟨j + 1, [NUL]⟩)

/-- The coordinator branch of `main` (lines 181-209) on the fetched seed page `script`
with `num_links_to_scrape = K`: the sequence of messages it sends.  `fuel` bounds the
attempts of each discovery loop. -/
def coordinator (fuel : Nat) (script : List Char) (recv : Nat → Nat) (K numprocs : Nat) :
    Outcome (List Send) :=
  let paragraph := StringParser script 0 "p".toList
  match linkLoop fuel script recv K 0 paragraph.start [] with
  | Outcome.done sent => Outcome.done (sent ++ terminations numprocs)
  | Outcome.fault => Outcome.fault
  | Outcome.fuelOut => Outcome.fuelOut

/-- Specification side of the quota claim: the non-empty names obtained by iterating
`WikiCrawler` `n` times from `cursor`, the cursor updated on every attempt, accepted or
rejected. -/
def scanNames (script : List Char) : Nat → Nat → List (List Char)
  | 0, _ => []
  | n + 1, cursor =>
    match WikiCrawler script cursor with
    | none => []
    | some c => if c.url = [] then scanNames script n c.pos
                else c.url :: scanNames script n c.pos

/-- Specification side of the quota claim: the link messages for a list of names, the
`i`-th one addressed to the rank read by the `i`-th `MPI_Recv`. -/
def linkMessages (recv : Nat → Nat) : Nat → List (List Char) → List Send
  | _, [] => []
  | i, name :: rest => ⟨recv i, name ++ [NUL]⟩ :: linkMessages recv (i + 1) rest

/-! ### Documents used below -/

/-- A paragraph whose last tag is never closed. -/
def docUnterminated : List Char := "<p>a<b".toList

/-- A document without any paragraph. -/
def docBold : List Char := "<b>hi</b>".toList

/-- A paragraph whose only child tag holds one entity. -/
def docEntity : List Char := "<p><b>A&amp;B</b></p>".toList

/-- Emphasis text nested in a decorative span. -/
def docKept : List Char := "<p><span><i>Kept</i></span></p>".toList

/-- The document `<p><span>T</span></p>`. -/
def docSpan (T : List Char) : List Char := "<p><span>".toList ++ T ++ "</span></p>".toList

/-- The document `<p><sup>T</sup></p>`. -/
def docSup (T : List Char) : List Char := "<p><sup>".toList ++ T ++ "</sup></p>".toList

/-- One article link. -/
def docLink : List Char := "<a href=\"/wiki/Y\">y</a>".toList

/-- One file link. -/
def docFile : List Char := "<a href=\"/wiki/File:Z.png\">".toList

/-- A table holding a link, followed by a link. -/
def docTable : List Char :=
  "<table><a href=\"/wiki/X\">x</a></table><a href=\"/wiki/Y\">y</a>".toList

/-- Two adjacent tables, each holding a link. -/
def docTwoTables : List Char :=
  "<table><a href=\"/wiki/X\">x</a></table><table><a href=\"/wiki/Y\">y</a></table>".toList

/-- A seed page with an article link, an external link and another article link. -/
def docSeed : List Char :=
  "<p><a href=\"/wiki/A\">a</a><a href=\"/x\">x</a><a href=\"/wiki/B\">b</a>".toList

set_option linter.unusedVariables false

/-! ### Occurrences of a pattern, as the specification speaks of them -/

/-- The pattern `pat` occurs in `script` at offset `j`. -/
def occursAt (script pat : List Char) (j : Nat) : Prop :=
  pat.isPrefixOf (script.drop j) = true

/-- The first occurrence of `pat` in `script` at or after `pos` is at offset `o`. -/
def firstFrom (script pat : List Char) (pos o : Nat) : Prop :=
  pos ≤ o ∧ occursAt script pat o ∧ ∀ j, j < o → pos ≤ j → ¬ occursAt script pat j

instance (script pat : List Char) (j : Nat) : Decidable (occursAt script pat j) := by
  unfold occursAt
  exact inferInstance

instance (script pat : List Char) (pos o : Nat) : Decidable (firstFrom script pat pos o) := by
  unfold firstFrom
  exact inferInstance

/-! ### `ParseHTML` with the emphasis write removed (second side of a refinement) -/

/-- The body of the inner loop of `ParseHTML` with the call `WriteFile(script, i,
filename)` of line 131 removed. -/
def ParseHTML.bodyPlain (junk : Nat → Nat → Char) (script : List Char) (st : PState) :
    Option (tag × PState) :=
  let next_tag := StringParser script st.script_pos []
  let span := StringParser script st.script_pos "span".toList
  let sup := StringParser script st.script_pos "sup".toList
  let script_pos := next_tag.start
  if script_pos ≠ span.start ∧ script_pos ≠ sup.start then
    match WriteFile (junk st.iter) script next_tag with
    | none => none
    | some w => some (next_tag, ⟨next_tag.end_, st.out ++ w, st.iter + 1⟩)
  else
    let p1 := if script_pos = span.start then span.end_ else script_pos
    let p2 := if p1 = sup.start then sup.end_ else p1
    some (next_tag, ⟨p2, st.out, st.iter + 1⟩)

/-- The inner loop of `ParseHTML` over `ParseHTML.bodyPlain`. -/
def ParseHTML.innerPlain (junk : Nat → Nat → Char) (script : List Char) (paragraph : tag) :
    Nat → PState → Outcome PState
  | 0, _ => Outcome.fuelOut
  | fuel + 1, st =>
    match ParseHTML.bodyPlain junk script st with
    | none => Outcome.fault
    | some (next_tag, st1) =>
      if next_tag.start < paragraph.end_ then
        ParseHTML.innerPlain junk script paragraph fuel st1
      else Outcome.done st1

/-- The outer loop of `ParseHTML` over `ParseHTML.innerPlain`. -/
def ParseHTML.outerPlain (junk : Nat → Nat → Char) (script : List Char) :
    Nat → PState → Outcome (List Char)
  | 0, _ => Outcome.fuelOut
  | fuel + 1, st =>
    let paragraph := StringParser script st.script_pos "p".toList
    match ParseHTML.innerPlain junk script paragraph fuel
        ⟨paragraph.start_o, st.out, st.iter⟩ with
    | Outcome.done st1 =>
      if paragraph.next ≠ 0 then ParseHTML.outerPlain junk script fuel st1
      else Outcome.done st1.out
    | Outcome.fault => Outcome.fault
    | Outcome.fuelOut => Outcome.fuelOut

/-- The procedure `ParseHTML` with the emphasis write removed. -/
def ParseHTMLPlain (fuel : Nat) (junk : Nat → Nat → Char) (script : List Char) :
    Outcome (List Char) :=
  ParseHTML.outerPlain junk script fuel ⟨0, [], 0⟩

/-- Runs written one after the other, then the run of the first tag once more. -/
def docOrder : List Char := "<p>A</p>B<p>C</p>D<x>".toList

/-! ## Facts about `find` -/

theorem npos_eq : npos = 18446744073709551615 := by decide

theorem sadd_eq (a b : Nat) (h : a + b < 2 ^ 64) : sadd a b = a + b := by
  unfold sadd; omega

theorem ssub_eq (a b : Nat) (hb : b ≤ a) (ha : a < 2 ^ 64) : ssub a b = a - b := by
  unfold ssub; omega

theorem isPrefixOf_nil_right (pat : List Char) (hp : pat ≠ []) :
    pat.isPrefixOf ([] : List Char) = false := by
  cases pat with
  | nil => exact absurd rfl hp
  | cons a as => rfl

/-- What the scan returns: `npos` when the pattern occurs nowhere in the remaining
text, and otherwise the offset of the first occurrence. -/
theorem findAux_spec (pat : List Char) (hp : pat ≠ []) :
    ∀ (l : List Char) (i : Nat),
      (findAux pat l i = npos ∧ ∀ j, pat.isPrefixOf (l.drop j) = false)
      ∨ (∃ d, d < l.length ∧ findAux pat l i = i + d ∧ pat.isPrefixOf (l.drop d) = true
            ∧ ∀ j, j < d → pat.isPrefixOf (l.drop j) = false) := by
  intro l
  induction l with
  | nil =>
    intro i
    left
    refine ⟨?_, ?_⟩
    · cases pat with
      | nil => exact absurd rfl hp
      | cons a as => rfl
    · intro j
      simpa using isPrefixOf_nil_right pat hp
  | cons c cs ih =>
    intro i
    by_cases hc : pat.isPrefixOf (c :: cs) = true
    · right
      refine ⟨0, by simp, ?_, by simpa using hc, ?_⟩
      · simp [findAux, hc]
      · intro j hj; omega
    · have hc' : pat.isPrefixOf (c :: cs) = false := Bool.eq_false_iff.mpr hc
      have hstep : findAux pat (c :: cs) i = findAux pat cs (i + 1) := by
        simp [findAux, hc']
      rcases ih (i + 1) with ⟨h1, h2⟩ | ⟨d, hd, h1, h2, h3⟩
      · left
        refine ⟨by rw [hstep, h1], ?_⟩
        intro j
        cases j with
        | zero => simpa using hc'
        | succ j => simpa using h2 j
      · right
        refine ⟨d + 1, by simpa using hd, by rw [hstep, h1]; omega, by simpa using h2, ?_⟩
        intro j hj
        cases j with
        | zero => simpa using hc'
        | succ j => simpa using h3 j (by omega)

/-- The contract of `std::string::find` for a non-empty pattern on a string shorter
than `npos`. -/
theorem find_spec (s pat : List Char) (pos : Nat) (hp : pat ≠ []) :
    (find s pat pos = npos ∧ ∀ j, pos ≤ j → pat.isPrefixOf (s.drop j) = false)
    ∨ (pos ≤ find s pat pos ∧ find s pat pos < s.length
        ∧ pat.isPrefixOf (s.drop (find s pat pos)) = true
        ∧ ∀ j, pos ≤ j → j < find s pat pos → pat.isPrefixOf (s.drop j) = false) := by
  unfold find
  by_cases hlt : s.length < pos
  · left
    simp only [hlt, if_true, true_and]
    intro j hj
    rw [List.drop_of_length_le (by omega)]
    exact isPrefixOf_nil_right pat hp
  · simp only [hlt, if_false]
    rcases findAux_spec pat hp (s.drop pos) pos with ⟨h1, h2⟩ | ⟨d, hd, h1, h2, h3⟩
    · left
      refine ⟨h1, ?_⟩
      intro j hj
      have := h2 (j - pos)
      rw [List.drop_drop] at this
      rwa [show pos + (j - pos) = j by omega] at this
    · right
      rw [List.length_drop] at hd
      rw [List.drop_drop] at h2
      refine ⟨by omega, by omega, by rw [h1]; exact h2, ?_⟩
      intro j hj hj2
      have := h3 (j - pos) (by omega)
      rw [List.drop_drop] at this
      rwa [show pos + (j - pos) = j by omega] at this

theorem find_found (s pat : List Char) (pos : Nat) (hp : pat ≠ [])
    (h : find s pat pos ≠ npos) :
    pos ≤ find s pat pos ∧ find s pat pos < s.length
      ∧ pat.isPrefixOf (s.drop (find s pat pos)) = true
      ∧ ∀ j, pos ≤ j → j < find s pat pos → pat.isPrefixOf (s.drop j) = false := by
  rcases find_spec s pat pos hp with ⟨h1, _⟩ | h2
  · exact absurd h1 h
  · exact h2

theorem find_le_of_occurs (s pat : List Char) (pos p : Nat) (hp : pat ≠ [])
    (hs : s.length < npos) (hpos : pos ≤ p) (hocc : pat.isPrefixOf (s.drop p) = true) :
    find s pat pos ≤ p ∧ find s pat pos ≠ npos := by
  rcases find_spec s pat pos hp with ⟨_, h2⟩ | ⟨h1, h2, h3, h4⟩
  · rw [h2 p hpos] at hocc
    exact absurd hocc (by simp)
  · have hne : find s pat pos ≠ npos := by omega
    refine ⟨?_, hne⟩
    by_contra hgt
    rw [h4 p hpos (by omega)] at hocc
    exact absurd hocc (by simp)

theorem isPrefixOf_cons_ne (a b : Char) (as bs : List Char) (h : a ≠ b) :
    (a :: as).isPrefixOf (b :: bs) = false := by
  simp [List.isPrefixOf, h]

theorem find_past_end (s pat : List Char) (pos : Nat) (h : s.length < pos) :
    find s pat pos = npos := by
  simp [find, h]


theorem find_of_le (s pat : List Char) (pos : Nat) (h : pos ≤ s.length) :
    find s pat pos = findAux pat (s.drop pos) pos := by
  unfold find
  rw [if_neg (by omega)]

theorem findAux_skip (a : Char) (ps : List Char) :
    ∀ (T rest : List Char) (i : Nat), (∀ c ∈ T, c ≠ a) →
      findAux (a :: ps) (T ++ rest) i = findAux (a :: ps) rest (i + T.length) := by
  intro T
  induction T with
  | nil => intro rest i _; rfl
  | cons t ts ih =>
    intro rest i h
    have ht : a ≠ t := fun e => h t (List.mem_cons_self t ts) e.symm
    have : findAux (a :: ps) (t :: (ts ++ rest)) i = findAux (a :: ps) (ts ++ rest) (i + 1) := by
      simp [findAux, isPrefixOf_cons_ne a t ps (ts ++ rest) ht]
    rw [List.cons_append, this, ih rest (i + 1) (fun c hc => h c (List.mem_cons_of_mem t hc))]
    rw [List.length_cons]
    congr 1
    omega

theorem StringParser_none (script : List Char) (index : Nat) (str : List Char)
    (h1 : find script ('<' :: str) index = npos) :
    StringParser script index str = tag.empty := by
  simp only [StringParser, h1, if_true]

theorem StringParser_found (script : List Char) (index : Nat) (str : List Char)
    (so gt st e len nx : Nat)
    (h1 : find script ('<' :: str) index = so) (hso : so ≠ npos)
    (h2 : find script ['>'] so = gt) (hst : sadd gt 1 = st)
    (h3 : find script ('<' :: '/' :: (str ++ ['>'])) st = e) (he : e ≠ npos)
    (hlen : ssub e st = len) (h4 : find script ('<' :: str) e = nx) :
    StringParser script index str = ⟨so, st, e, len, nx⟩ := by
  simp only [StringParser, h1, h2, hst, h3, hlen, h4, if_neg hso, if_neg he]

theorem StringParser_fallback (script : List Char) (index : Nat) (str : List Char)
    (so gt st e len nx : Nat)
    (h1 : find script ('<' :: str) index = so) (hso : so ≠ npos)
    (h2 : find script ['>'] so = gt) (hst : sadd gt 1 = st)
    (h3 : find script ('<' :: '/' :: (str ++ ['>'])) st = npos)
    (h3b : find script ['<'] st = e)
    (hlen : ssub e st = len) (h4 : find script ('<' :: str) e = nx) :
    StringParser script index str = ⟨so, st, e, len, nx⟩ := by
  simp only [StringParser, h1, h2, hst, h3, h3b, hlen, h4, if_neg hso, if_true]

/-! ## Stepping lemmas for the loops of `ParseHTML` -/

theorem body_write (junk : Nat → Nat → Char) (script : List Char) (pos k : Nat)
    (out w : List Char) (nt sp su : tag)
    (h1 : StringParser script pos [] = nt)
    (h2 : StringParser script pos "span".toList = sp)
    (h3 : StringParser script pos "sup".toList = su)
    (hne : nt.start ≠ sp.start ∧ nt.start ≠ su.start)
    (hw : WriteFile (junk k) script nt = some w) :
    ParseHTML.body junk script ⟨pos, out, k⟩ = some (nt, ⟨nt.end_, out ++ w, k + 1⟩) := by
  simp only [ParseHTML.body, h1, h2, h3]
  rw [if_pos hne, hw]

theorem body_skip (junk : Nat → Nat → Char) (script : List Char) (pos k p : Nat)
    (out : List Char) (nt sp su it : tag)
    (h1 : StringParser script pos [] = nt)
    (h2 : StringParser script pos "span".toList = sp)
    (h3 : StringParser script pos "sup".toList = su)
    (hd : ¬ (nt.start ≠ sp.start ∧ nt.start ≠ su.start))
    (hi : StringParser script nt.start "i".toList = it)
    (hg : ¬ (it.start ≠ 0 ∧ it.start < nt.end_))
    (hp : (if (if nt.start = sp.start then sp.end_ else nt.start) = su.start then su.end_
           else (if nt.start = sp.start then sp.end_ else nt.start)) = p) :
    ParseHTML.body junk script ⟨pos, out, k⟩ = some (nt, ⟨p, out, k + 1⟩) := by
  simp only [ParseHTML.body, h1, h2, h3]
  rw [if_neg hd]
  simp only [hi]
  rw [if_neg hg]
  simp only [hp, List.append_nil]

theorem inner_continue (junk : Nat → Nat → Char) (script : List Char) (paragraph : tag)
    (fuel : Nat) (st st1 : PState) (nt : tag)
    (hb : ParseHTML.body junk script st = some (nt, st1))
    (hc : nt.start < paragraph.end_) :
    ParseHTML.inner junk script paragraph (fuel + 1) st
      = ParseHTML.inner junk script paragraph fuel st1 := by
  simp [ParseHTML.inner, hb, hc]

theorem inner_exit (junk : Nat → Nat → Char) (script : List Char) (paragraph : tag)
    (fuel : Nat) (st st1 : PState) (nt : tag)
    (hb : ParseHTML.body junk script st = some (nt, st1))
    (hc : ¬ nt.start < paragraph.end_) :
    ParseHTML.inner junk script paragraph (fuel + 1) st = Outcome.done st1 := by
  simp [ParseHTML.inner, hb, hc]

theorem outer_continue (junk : Nat → Nat → Char) (script : List Char) (paragraph : tag)
    (fuel pos k : Nat) (out : List Char) (st1 : PState)
    (hp : StringParser script pos "p".toList = paragraph)
    (hi : ParseHTML.inner junk script paragraph fuel ⟨paragraph.start_o, out, k⟩
            = Outcome.done st1)
    (hn : paragraph.next ≠ 0) :
    ParseHTML.outer junk script (fuel + 1) ⟨pos, out, k⟩
      = ParseHTML.outer junk script fuel st1 := by
  simp only [ParseHTML.outer, hp, hi]
  rw [if_pos hn]

theorem outer_exit (junk : Nat → Nat → Char) (script : List Char) (paragraph : tag)
    (fuel pos k : Nat) (out : List Char) (st1 : PState)
    (hp : StringParser script pos "p".toList = paragraph)
    (hi : ParseHTML.inner junk script paragraph fuel ⟨paragraph.start_o, out, k⟩
            = Outcome.done st1)
    (hn : paragraph.next = 0) :
    ParseHTML.outer junk script (fuel + 1) ⟨pos, out, k⟩ = Outcome.done st1.out := by
  simp only [ParseHTML.outer, hp, hi]
  rw [if_neg (not_not.mpr hn)]

theorem outer_fuelOut (junk : Nat → Nat → Char) (script : List Char) (paragraph : tag)
    (fuel pos k : Nat) (out : List Char)
    (hp : StringParser script pos "p".toList = paragraph)
    (hi : ParseHTML.inner junk script paragraph fuel ⟨paragraph.start_o, out, k⟩
            = Outcome.fuelOut) :
    ParseHTML.outer junk script (fuel + 1) ⟨pos, out, k⟩ = Outcome.fuelOut := by
  simp only [ParseHTML.outer, hp, hi]

/-! ## The unterminated tag `<p>a<b` -/

theorem unterminated_body_zero (junk : Nat → Nat → Char) (out : List Char) (k : Nat) :
    ParseHTML.body junk docUnterminated ⟨0, out, k⟩
      = some (⟨0, 3, 4, 1, 4⟩, ⟨4, out ++ ['a'], k + 1⟩) :=
  body_write junk docUnterminated 0 k out ['a'] ⟨0, 3, 4, 1, 4⟩ tag.empty tag.empty
    (by decide) (by decide) (by decide) (by decide) rfl

theorem unterminated_body_four (junk : Nat → Nat → Char) (out : List Char) (k : Nat) :
    ParseHTML.body junk docUnterminated ⟨4, out, k⟩
      = some (⟨4, 0, 0, 0, 0⟩, ⟨0, out, k + 1⟩) :=
  body_skip junk docUnterminated 4 k 0 out ⟨4, 0, 0, 0, 0⟩ tag.empty tag.empty tag.empty
    (by decide) (by decide) (by decide) (by decide) (by decide) (by decide) (by decide)

theorem unterminated_inner (junk : Nat → Nat → Char) (fuel : Nat) :
    ∀ (out : List Char) (k : Nat),
      ParseHTML.inner junk docUnterminated ⟨0, 3, 4, 1, npos⟩ fuel ⟨0, out, k⟩
          = Outcome.fuelOut
      ∧ ParseHTML.inner junk docUnterminated ⟨0, 3, 4, 1, npos⟩ fuel ⟨4, out, k⟩
          = Outcome.fuelOut := by
  induction fuel with
  | zero => intro out k; exact ⟨rfl, rfl⟩
  | succ n ih =>
    intro out k
    constructor
    · rw [inner_continue junk docUnterminated _ n _ _ _ (unterminated_body_zero junk out k)
        (by decide)]
      exact (ih _ _).2
    · rw [inner_continue junk docUnterminated _ n _ _ _ (unterminated_body_four junk out k)
        (by decide)]
      exact (ih _ _).1

/-- C1: on the document `<p>a<b` the scan of `ParseHTML` does not terminate: whatever
the iteration budget, the run ends with the budget used up (the inner loop alternates
between the positions 0 and 4 for ever). -/
theorem ParseHTML_unterminated_tag_never_exits (fuel : Nat) (junk : Nat → Nat → Char) :
    ParseHTML fuel junk "<p>a<b".toList = Outcome.fuelOut := by
  cases fuel with
  | zero => rfl
  | succ n =>
    exact outer_fuelOut junk docUnterminated ⟨0, 3, 4, 1, npos⟩ n 0 0 [] (by decide)
      (unterminated_inner junk n [] 0).1

/-! ## Concrete runs of `ParseHTML` -/

/-- C2: the document `<b>hi</b>` contains no `<p`, and yet `ParseHTML` writes `hi`: the
`do` loops run their bodies once with the empty paragraph, the scan position is reset
to 0 and the content of the first tag of the document is written. -/
theorem ParseHTML_writes_outside_paragraph (junk : Nat → Nat → Char) (m : Nat) :
    find "<b>hi</b>".toList "<p".toList 0 = npos
      ∧ ParseHTML (m + 2) junk "<b>hi</b>".toList = Outcome.done "hi".toList :=
  ⟨by decide, rfl⟩

theorem entity_body_0 (junk : Nat → Nat → Char) (out : List Char) (k : Nat) :
    ParseHTML.body junk docEntity ⟨0, out, k⟩ = some (⟨0, 3, 3, 0, 3⟩, ⟨3, out, k + 1⟩) := by
  have h := body_write junk docEntity 0 k out [] ⟨0, 3, 3, 0, 3⟩ tag.empty tag.empty
    (by decide) (by decide) (by decide) (by decide) rfl
  rw [List.append_nil] at h
  exact h

theorem entity_body_3 (junk : Nat → Nat → Char) (out : List Char) (k : Nat) :
    ParseHTML.body junk docEntity ⟨3, out, k⟩
      = some (⟨3, 6, 13, 7, 13⟩,
          ⟨13, out ++ ['A', junk k 1, junk k 2, junk k 3, junk k 4, junk k 5, 'B', NUL].takeWhile
            (fun c => c != NUL), k + 1⟩) :=
  body_write junk docEntity 3 k out _ ⟨3, 6, 13, 7, 13⟩ tag.empty tag.empty
    (by decide) (by decide) (by decide) (by decide) rfl

theorem entity_body_13 (junk : Nat → Nat → Char) (out : List Char) (k : Nat) :
    ParseHTML.body junk docEntity ⟨13, out, k⟩
      = some (⟨13, 17, 17, 0, 17⟩, ⟨17, out, k + 1⟩) := by
  have h := body_write junk docEntity 13 k out [] ⟨13, 17, 17, 0, 17⟩ tag.empty tag.empty
    (by decide) (by decide) (by decide) (by decide) rfl
  rw [List.append_nil] at h
  exact h

theorem entity_run (junk : Nat → Nat → Char) (m : Nat) :
    ParseHTML (m + 4) junk docEntity
      = Outcome.done (['A', junk 1 1, junk 1 2, junk 1 3, junk 1 4, junk 1 5, 'B', NUL].takeWhile
            (fun c => c != NUL)) := by
  have hin : ParseHTML.inner junk docEntity ⟨0, 3, 17, 14, npos⟩ (m + 3) ⟨0, [], 0⟩
      = Outcome.done ⟨17, ['A', junk 1 1, junk 1 2, junk 1 3, junk 1 4, junk 1 5, 'B',
          NUL].takeWhile (fun c => c != NUL), 3⟩ := by
    rw [inner_continue junk docEntity _ (m + 2) _ _ _ (entity_body_0 junk [] 0) (by decide),
      inner_continue junk docEntity _ (m + 1) _ _ _ (entity_body_3 junk [] 1) (by decide),
      inner_exit junk docEntity _ m _ _ _ (entity_body_13 junk _ 2) (by decide)]
    rfl
  unfold ParseHTML
  rw [outer_continue junk docEntity ⟨0, 3, 17, 14, npos⟩ (m + 3) 0 0 [] _ (by decide) hin
    (by decide)]
  exact outer_exit junk docEntity tag.empty (m + 2) 17 3 _ _ (by decide)
    (inner_exit junk docEntity tag.empty (m + 1) _ _ _ (entity_body_0 junk _ 3) (by decide)) rfl

/-- C3: on `<p><b>A&amp;B</b></p>` the buffer of `WriteFile` holds `A`, five cells that
are never written (the buffer position is advanced by the width of the entity), `B` and
NUL; the file receives `A` followed by the never-written cells and `B`, cut at the first
NUL.  With those cells NUL the output is `A`, with those cells `x` it is `AxxxxxB`; it
is `AB` in neither case. -/
theorem ParseHTML_entity_leaves_gap (junk : Nat → Nat → Char) (m : Nat) :
    ParseHTML (m + 4) junk "<p><b>A&amp;B</b></p>".toList
        = Outcome.done ('A' :: [junk 1 1, junk 1 2, junk 1 3, junk 1 4, junk 1 5, 'B'].takeWhile
            (fun c => c != NUL))
      ∧ ParseHTML 4 (fun _ _ => NUL) "<p><b>A&amp;B</b></p>".toList = Outcome.done "A".toList
      ∧ ParseHTML 4 (fun _ _ => 'x') "<p><b>A&amp;B</b></p>".toList
          = Outcome.done "AxxxxxB".toList := by
  refine ⟨?_, by decide, by decide⟩
  have h := entity_run junk m
  have e : ['A', junk 1 1, junk 1 2, junk 1 3, junk 1 4, junk 1 5, 'B', NUL].takeWhile
        (fun c => c != NUL)
      = 'A' :: [junk 1 1, junk 1 2, junk 1 3, junk 1 4, junk 1 5, 'B'].takeWhile
        (fun c => c != NUL) := by
    have hA : ('A' != NUL) = true := by decide
    have hN : (NUL != NUL) = false := by decide
    simp only [List.takeWhile, hA, hN]
  rw [e] at h
  exact h

/-- C4: on `<p><span><i>Kept</i></span></p>` `ParseHTML` writes nothing: the `<i>` tag
found inside the span has `start` 12, the guard compares it with `next_tag.end`, which
is 9 (the first `<` after the open span tag), so the emphasis text is not written. -/
theorem ParseHTML_nested_emphasis_dropped (junk : Nat → Nat → Char) (m : Nat) :
    ParseHTML (m + 4) junk "<p><span><i>Kept</i></span></p>".toList = Outcome.done []
      ∧ StringParser "<p><span><i>Kept</i></span></p>".toList 3 [] = ⟨3, 9, 9, 0, 9⟩
      ∧ StringParser "<p><span><i>Kept</i></span></p>".toList 9 "i".toList
          = ⟨9, 12, 16, 4, npos⟩ :=
  ⟨rfl, by decide, by decide⟩

/-! ## The document `<p><span>T</span></p>` -/

theorem docSpan_eq (T : List Char) : docSpan T =
    '<' :: 'p' :: '>' :: '<' :: 's' :: 'p' :: 'a' :: 'n' :: '>' :: (T ++ ['<', '/', 's', 'p', 'a', 'n', '>', '<', '/', 'p', '>']) := by
  simp [docSpan]

theorem docSpan_length (T : List Char) : (docSpan T).length = T.length + 20 := by
  simp [docSpan_eq]

theorem docSpan_drop_0 (T : List Char) : (docSpan T).drop 0 =
    '<' :: 'p' :: '>' :: '<' :: 's' :: 'p' :: 'a' :: 'n' :: '>' :: (T ++ ['<', '/', 's', 'p', 'a', 'n', '>', '<', '/', 'p', '>']) := by
  simp [docSpan_eq]

theorem docSpan_drop_3 (T : List Char) : (docSpan T).drop 3 =
    '<' :: 's' :: 'p' :: 'a' :: 'n' :: '>' :: (T ++ ['<', '/', 's', 'p', 'a', 'n', '>', '<', '/', 'p', '>']) := by
  simp [docSpan_eq]

theorem docSpan_drop_a (T : List Char) : (docSpan T).drop 9 = T ++ ['<', '/', 's', 'p', 'a', 'n', '>', '<', '/', 'p', '>'] := by
  simp [docSpan_eq]

theorem docSpan_drop_t (T : List Char) : (docSpan T).drop (T.length + 9) = ['<', '/', 's', 'p', 'a', 'n', '>', '<', '/', 'p', '>'] := by
  rw [show T.length + 9 = 9 + T.length from Nat.add_comm _ _, ← List.drop_drop, docSpan_drop_a]
  simp

theorem docSpan_drop_e (T : List Char) : (docSpan T).drop (T.length + 16) = ['<', '/', 'p', '>'] := by
  rw [show T.length + 16 = (T.length + 9) + 7 by omega, ← List.drop_drop, docSpan_drop_t]
  simp

theorem docSpan_find_p_0 (T : List Char) (hT : ∀ c ∈ T, c ≠ '<')
    (hl : (docSpan T).length < npos) : find (docSpan T) ['<', 'p'] (0) = 0 := by
  have hlen := docSpan_length T
  rw [find_of_le _ _ _ (by omega), docSpan_drop_0]
  simp [findAux, findAux_skip _ _ T _ _ hT]
  try omega

theorem docSpan_find_gt_0 (T : List Char) (hT : ∀ c ∈ T, c ≠ '<')
    (hl : (docSpan T).length < npos) : find (docSpan T) ['>'] (0) = 2 := by
  have hlen := docSpan_length T
  rw [find_of_le _ _ _ (by omega), docSpan_drop_0]
  simp [findAux, findAux_skip _ _ T _ _ hT]
  try omega

theorem docSpan_find_cp_3 (T : List Char) (hT : ∀ c ∈ T, c ≠ '<')
    (hl : (docSpan T).length < npos) : find (docSpan T) ['<', '/', 'p', '>'] (3) = T.length + 16 := by
  have hlen := docSpan_length T
  rw [find_of_le _ _ _ (by omega), docSpan_drop_3]
  simp [findAux, findAux_skip _ _ T _ _ hT]
  try omega

theorem docSpan_find_p_e (T : List Char) (hT : ∀ c ∈ T, c ≠ '<')
    (hl : (docSpan T).length < npos) : find (docSpan T) ['<', 'p'] (T.length + 16) = npos := by
  have hlen := docSpan_length T
  rw [find_of_le _ _ _ (by omega), docSpan_drop_e]
  simp [findAux, findAux_skip _ _ T _ _ hT]
  try omega

theorem docSpan_find_lt_0 (T : List Char) (hT : ∀ c ∈ T, c ≠ '<')
    (hl : (docSpan T).length < npos) : find (docSpan T) ['<'] (0) = 0 := by
  have hlen := docSpan_length T
  rw [find_of_le _ _ _ (by omega), docSpan_drop_0]
  simp [findAux, findAux_skip _ _ T _ _ hT]
  try omega

theorem docSpan_find_cany_3 (T : List Char) (hT : ∀ c ∈ T, c ≠ '<')
    (hl : (docSpan T).length < npos) : find (docSpan T) ['<', '/', '>'] (3) = npos := by
  have hlen := docSpan_length T
  rw [find_of_le _ _ _ (by omega), docSpan_drop_3]
  simp [findAux, findAux_skip _ _ T _ _ hT]
  try omega

theorem docSpan_find_lt_3 (T : List Char) (hT : ∀ c ∈ T, c ≠ '<')
    (hl : (docSpan T).length < npos) : find (docSpan T) ['<'] (3) = 3 := by
  have hlen := docSpan_length T
  rw [find_of_le _ _ _ (by omega), docSpan_drop_3]
  simp [findAux, findAux_skip _ _ T _ _ hT]
  try omega

theorem docSpan_find_name_0 (T : List Char) (hT : ∀ c ∈ T, c ≠ '<')
    (hl : (docSpan T).length < npos) : find (docSpan T) ['<', 's', 'p', 'a', 'n'] (0) = 3 := by
  have hlen := docSpan_length T
  rw [find_of_le _ _ _ (by omega), docSpan_drop_0]
  simp [findAux, findAux_skip _ _ T _ _ hT]
  try omega

theorem docSpan_find_gt_3 (T : List Char) (hT : ∀ c ∈ T, c ≠ '<')
    (hl : (docSpan T).length < npos) : find (docSpan T) ['>'] (3) = 8 := by
  have hlen := docSpan_length T
  rw [find_of_le _ _ _ (by omega), docSpan_drop_3]
  simp [findAux, findAux_skip _ _ T _ _ hT]
  try omega

theorem docSpan_find_cname_a (T : List Char) (hT : ∀ c ∈ T, c ≠ '<')
    (hl : (docSpan T).length < npos) : find (docSpan T) ['<', '/', 's', 'p', 'a', 'n', '>'] (9) = T.length + 9 := by
  have hlen := docSpan_length T
  rw [find_of_le _ _ _ (by omega), docSpan_drop_a]
  simp [findAux, findAux_skip _ _ T _ _ hT]
  try omega

theorem docSpan_find_name_t (T : List Char) (hT : ∀ c ∈ T, c ≠ '<')
    (hl : (docSpan T).length < npos) : find (docSpan T) ['<', 's', 'p', 'a', 'n'] (T.length + 9) = npos := by
  have hlen := docSpan_length T
  rw [find_of_le _ _ _ (by omega), docSpan_drop_t]
  simp [findAux, findAux_skip _ _ T _ _ hT]
  try omega

theorem docSpan_find_other_0 (T : List Char) (hT : ∀ c ∈ T, c ≠ '<')
    (hl : (docSpan T).length < npos) : find (docSpan T) ['<', 's', 'u', 'p'] (0) = npos := by
  have hlen := docSpan_length T
  rw [find_of_le _ _ _ (by omega), docSpan_drop_0]
  simp [findAux, findAux_skip _ _ T _ _ hT]
  try omega

theorem docSpan_find_cany_a (T : List Char) (hT : ∀ c ∈ T, c ≠ '<')
    (hl : (docSpan T).length < npos) : find (docSpan T) ['<', '/', '>'] (9) = npos := by
  have hlen := docSpan_length T
  rw [find_of_le _ _ _ (by omega), docSpan_drop_a]
  simp [findAux, findAux_skip _ _ T _ _ hT]
  try omega

theorem docSpan_find_lt_a (T : List Char) (hT : ∀ c ∈ T, c ≠ '<')
    (hl : (docSpan T).length < npos) : find (docSpan T) ['<'] (9) = T.length + 9 := by
  have hlen := docSpan_length T
  rw [find_of_le _ _ _ (by omega), docSpan_drop_a]
  simp [findAux, findAux_skip _ _ T _ _ hT]
  try omega

theorem docSpan_find_lt_t (T : List Char) (hT : ∀ c ∈ T, c ≠ '<')
    (hl : (docSpan T).length < npos) : find (docSpan T) ['<'] (T.length + 9) = T.length + 9 := by
  have hlen := docSpan_length T
  rw [find_of_le _ _ _ (by omega), docSpan_drop_t]
  simp [findAux, findAux_skip _ _ T _ _ hT]
  try omega

theorem docSpan_find_name_3 (T : List Char) (hT : ∀ c ∈ T, c ≠ '<')
    (hl : (docSpan T).length < npos) : find (docSpan T) ['<', 's', 'p', 'a', 'n'] (3) = 3 := by
  have hlen := docSpan_length T
  rw [find_of_le _ _ _ (by omega), docSpan_drop_3]
  simp [findAux, findAux_skip _ _ T _ _ hT]
  try omega

theorem docSpan_find_other_3 (T : List Char) (hT : ∀ c ∈ T, c ≠ '<')
    (hl : (docSpan T).length < npos) : find (docSpan T) ['<', 's', 'u', 'p'] (3) = npos := by
  have hlen := docSpan_length T
  rw [find_of_le _ _ _ (by omega), docSpan_drop_3]
  simp [findAux, findAux_skip _ _ T _ _ hT]
  try omega

theorem docSpan_find_i_a (T : List Char) (hT : ∀ c ∈ T, c ≠ '<')
    (hl : (docSpan T).length < npos) : find (docSpan T) ['<', 'i'] (9) = npos := by
  have hlen := docSpan_length T
  rw [find_of_le _ _ _ (by omega), docSpan_drop_a]
  simp [findAux, findAux_skip _ _ T _ _ hT]
  try omega

theorem docSpan_find_gt_t (T : List Char) (hT : ∀ c ∈ T, c ≠ '<')
    (hl : (docSpan T).length < npos) : find (docSpan T) ['>'] (T.length + 9) = T.length + 15 := by
  have hlen := docSpan_length T
  rw [find_of_le _ _ _ (by omega), docSpan_drop_t]
  simp [findAux, findAux_skip _ _ T _ _ hT]
  try omega

theorem docSpan_find_cany_e (T : List Char) (hT : ∀ c ∈ T, c ≠ '<')
    (hl : (docSpan T).length < npos) : find (docSpan T) ['<', '/', '>'] (T.length + 16) = npos := by
  have hlen := docSpan_length T
  rw [find_of_le _ _ _ (by omega), docSpan_drop_e]
  simp [findAux, findAux_skip _ _ T _ _ hT]
  try omega

theorem docSpan_find_lt_e (T : List Char) (hT : ∀ c ∈ T, c ≠ '<')
    (hl : (docSpan T).length < npos) : find (docSpan T) ['<'] (T.length + 16) = T.length + 16 := by
  have hlen := docSpan_length T
  rw [find_of_le _ _ _ (by omega), docSpan_drop_e]
  simp [findAux, findAux_skip _ _ T _ _ hT]
  try omega

theorem docSpan_find_other_t (T : List Char) (hT : ∀ c ∈ T, c ≠ '<')
    (hl : (docSpan T).length < npos) : find (docSpan T) ['<', 's', 'u', 'p'] (T.length + 9) = npos := by
  have hlen := docSpan_length T
  rw [find_of_le _ _ _ (by omega), docSpan_drop_t]
  simp [findAux, findAux_skip _ _ T _ _ hT]
  try omega

theorem docSpan_par_0 (T : List Char) (hT : ∀ c ∈ T, c ≠ '<')
    (hl : (docSpan T).length < npos) :
    StringParser (docSpan T) (0) "p".toList = ⟨0, 3, T.length + 16, T.length + 13, npos⟩ := by
  have hlen := docSpan_length T
  have hn := npos_eq
  exact StringParser_found _ _ _ (0) (2) (3) (T.length + 16) (T.length + 13) (npos) (docSpan_find_p_0 T hT hl) (by omega) (docSpan_find_gt_0 T hT hl)
    (by unfold sadd; omega) (docSpan_find_cp_3 T hT hl) (by omega)
    (by unfold ssub; omega) (docSpan_find_p_e T hT hl)

theorem docSpan_any_0 (T : List Char) (hT : ∀ c ∈ T, c ≠ '<')
    (hl : (docSpan T).length < npos) :
    StringParser (docSpan T) (0) [] = ⟨0, 3, 3, 0, 3⟩ := by
  have hlen := docSpan_length T
  have hn := npos_eq
  exact StringParser_fallback _ _ _ (0) (2) (3) (3) (0) (3) (docSpan_find_lt_0 T hT hl) (by omega) (docSpan_find_gt_0 T hT hl)
    (by unfold sadd; omega) (docSpan_find_cany_3 T hT hl) (docSpan_find_lt_3 T hT hl)
    (by unfold ssub; omega) (docSpan_find_lt_3 T hT hl)

theorem docSpan_name_0 (T : List Char) (hT : ∀ c ∈ T, c ≠ '<')
    (hl : (docSpan T).length < npos) :
    StringParser (docSpan T) (0) "span".toList = ⟨3, 9, T.length + 9, T.length, npos⟩ := by
  have hlen := docSpan_length T
  have hn := npos_eq
  exact StringParser_found _ _ _ (3) (8) (9) (T.length + 9) (T.length) (npos) (docSpan_find_name_0 T hT hl) (by omega) (docSpan_find_gt_3 T hT hl)
    (by unfold sadd; omega) (docSpan_find_cname_a T hT hl) (by omega)
    (by unfold ssub; omega) (docSpan_find_name_t T hT hl)

theorem docSpan_other_0 (T : List Char) (hT : ∀ c ∈ T, c ≠ '<')
    (hl : (docSpan T).length < npos) :
    StringParser (docSpan T) (0) "sup".toList = tag.empty := by
  have hlen := docSpan_length T
  have hn := npos_eq
  exact StringParser_none _ _ _ (docSpan_find_other_0 T hT hl)

theorem docSpan_any_3 (T : List Char) (hT : ∀ c ∈ T, c ≠ '<')
    (hl : (docSpan T).length < npos) :
    StringParser (docSpan T) (3) [] = ⟨3, 9, T.length + 9, T.length, T.length + 9⟩ := by
  have hlen := docSpan_length T
  have hn := npos_eq
  exact StringParser_fallback _ _ _ (3) (8) (9) (T.length + 9) (T.length) (T.length + 9) (docSpan_find_lt_3 T hT hl) (by omega) (docSpan_find_gt_3 T hT hl)
    (by unfold sadd; omega) (docSpan_find_cany_a T hT hl) (docSpan_find_lt_a T hT hl)
    (by unfold ssub; omega) (docSpan_find_lt_t T hT hl)

theorem docSpan_name_3 (T : List Char) (hT : ∀ c ∈ T, c ≠ '<')
    (hl : (docSpan T).length < npos) :
    StringParser (docSpan T) (3) "span".toList = ⟨3, 9, T.length + 9, T.length, npos⟩ := by
  have hlen := docSpan_length T
  have hn := npos_eq
  exact StringParser_found _ _ _ (3) (8) (9) (T.length + 9) (T.length) (npos) (docSpan_find_name_3 T hT hl) (by omega) (docSpan_find_gt_3 T hT hl)
    (by unfold sadd; omega) (docSpan_find_cname_a T hT hl) (by omega)
    (by unfold ssub; omega) (docSpan_find_name_t T hT hl)

theorem docSpan_other_3 (T : List Char) (hT : ∀ c ∈ T, c ≠ '<')
    (hl : (docSpan T).length < npos) :
    StringParser (docSpan T) (3) "sup".toList = tag.empty := by
  have hlen := docSpan_length T
  have hn := npos_eq
  exact StringParser_none _ _ _ (docSpan_find_other_3 T hT hl)

theorem docSpan_i_a (T : List Char) (hT : ∀ c ∈ T, c ≠ '<')
    (hl : (docSpan T).length < npos) :
    StringParser (docSpan T) (9) "i".toList = tag.empty := by
  have hlen := docSpan_length T
  have hn := npos_eq
  exact StringParser_none _ _ _ (docSpan_find_i_a T hT hl)

theorem docSpan_any_t (T : List Char) (hT : ∀ c ∈ T, c ≠ '<')
    (hl : (docSpan T).length < npos) :
    StringParser (docSpan T) (T.length + 9) [] = ⟨T.length + 9, T.length + 16, T.length + 16, 0, T.length + 16⟩ := by
  have hlen := docSpan_length T
  have hn := npos_eq
  exact StringParser_fallback _ _ _ (T.length + 9) (T.length + 15) (T.length + 16) (T.length + 16) (0) (T.length + 16) (docSpan_find_lt_t T hT hl) (by omega) (docSpan_find_gt_t T hT hl)
    (by unfold sadd; omega) (docSpan_find_cany_e T hT hl) (docSpan_find_lt_e T hT hl)
    (by unfold ssub; omega) (docSpan_find_lt_e T hT hl)

theorem docSpan_name_t (T : List Char) (hT : ∀ c ∈ T, c ≠ '<')
    (hl : (docSpan T).length < npos) :
    StringParser (docSpan T) (T.length + 9) "span".toList = tag.empty := by
  have hlen := docSpan_length T
  have hn := npos_eq
  exact StringParser_none _ _ _ (docSpan_find_name_t T hT hl)

theorem docSpan_other_t (T : List Char) (hT : ∀ c ∈ T, c ≠ '<')
    (hl : (docSpan T).length < npos) :
    StringParser (docSpan T) (T.length + 9) "sup".toList = tag.empty := by
  have hlen := docSpan_length T
  have hn := npos_eq
  exact StringParser_none _ _ _ (docSpan_find_other_t T hT hl)

theorem docSpan_par_e (T : List Char) (hT : ∀ c ∈ T, c ≠ '<')
    (hl : (docSpan T).length < npos) :
    StringParser (docSpan T) (T.length + 16) "p".toList = tag.empty := by
  have hlen := docSpan_length T
  have hn := npos_eq
  exact StringParser_none _ _ _ (docSpan_find_p_e T hT hl)

theorem docSpan_body_0 (junk : Nat → Nat → Char) (T : List Char) (hT : ∀ c ∈ T, c ≠ '<')
    (hl : (docSpan T).length < npos) (out : List Char) (k : Nat) :
    ParseHTML.body junk (docSpan T) ⟨0, out, k⟩
      = some (⟨0, 3, 3, 0, 3⟩, ⟨3, out, k + 1⟩) := by
  have hlen := docSpan_length T
  have h := body_write junk (docSpan T) 0 k out [] ⟨0, 3, 3, 0, 3⟩ (⟨3, 9, T.length + 9, T.length, npos⟩) (tag.empty)
    (docSpan_any_0 T hT hl) (docSpan_name_0 T hT hl) (docSpan_other_0 T hT hl)
    (by constructor <;> simp [tag.empty]) (by simp [WriteFile])
  rw [List.append_nil] at h
  exact h

theorem docSpan_body_3 (junk : Nat → Nat → Char) (T : List Char) (hT : ∀ c ∈ T, c ≠ '<')
    (hl : (docSpan T).length < npos) (out : List Char) (k : Nat) :
    ParseHTML.body junk (docSpan T) ⟨3, out, k⟩
      = some (⟨3, 9, T.length + 9, T.length, T.length + 9⟩, ⟨T.length + 9, out, k + 1⟩) := by
  have hlen := docSpan_length T
  exact body_skip junk (docSpan T) 3 k (T.length + 9) out ⟨3, 9, T.length + 9, T.length, T.length + 9⟩
    (⟨3, 9, T.length + 9, T.length, npos⟩) (tag.empty) tag.empty
    (docSpan_any_3 T hT hl) (docSpan_name_3 T hT hl) (docSpan_other_3 T hT hl)
    (by simp [tag.empty]) (docSpan_i_a T hT hl) (by simp [tag.empty]) (by simp [tag.empty])

theorem docSpan_body_t (junk : Nat → Nat → Char) (T : List Char) (hT : ∀ c ∈ T, c ≠ '<')
    (hl : (docSpan T).length < npos) (out : List Char) (k : Nat) :
    ParseHTML.body junk (docSpan T) ⟨T.length + 9, out, k⟩
      = some (⟨T.length + 9, T.length + 16, T.length + 16, 0, T.length + 16⟩, ⟨T.length + 16, out, k + 1⟩) := by
  have hlen := docSpan_length T
  have h := body_write junk (docSpan T) (T.length + 9) k out [] ⟨T.length + 9, T.length + 16, T.length + 16, 0, T.length + 16⟩
    (tag.empty) (tag.empty)
    (docSpan_any_t T hT hl) (docSpan_name_t T hT hl) (docSpan_other_t T hT hl)
    (by constructor <;> simp [tag.empty]) (by simp [WriteFile])
  rw [List.append_nil] at h
  exact h

theorem docSpan_inner_par (junk : Nat → Nat → Char) (T : List Char) (hT : ∀ c ∈ T, c ≠ '<')
    (hl : (docSpan T).length < npos) (out : List Char) (k m : Nat) :
    ParseHTML.inner junk (docSpan T) ⟨0, 3, T.length + 16, T.length + 13, npos⟩ (m + 3) ⟨0, out, k⟩
      = Outcome.done ⟨T.length + 16, out, k + 3⟩ := by
  rw [inner_continue junk (docSpan T) _ (m + 2) _ _ _ (docSpan_body_0 junk T hT hl out k)
      (by show 3 < T.length + 16; omega),
    inner_continue junk (docSpan T) _ (m + 1) _ _ _ (docSpan_body_3 junk T hT hl out (k + 1))
      (by show 9 < T.length + 16; omega),
    inner_exit junk (docSpan T) _ m _ _ _ (docSpan_body_t junk T hT hl out (k + 1 + 1))
      (by show ¬ T.length + 16 < T.length + 16; omega)]

theorem docSpan_inner_last (junk : Nat → Nat → Char) (T : List Char) (hT : ∀ c ∈ T, c ≠ '<')
    (hl : (docSpan T).length < npos) (out : List Char) (k m : Nat) :
    ParseHTML.inner junk (docSpan T) tag.empty (m + 1) ⟨0, out, k⟩
      = Outcome.done ⟨3, out, k + 1⟩ :=
  inner_exit junk (docSpan T) _ m _ _ _ (docSpan_body_0 junk T hT hl out k)
    (by show ¬ 3 < 0; omega)

theorem docSpan_ParseHTML (junk : Nat → Nat → Char) (T : List Char) (hT : ∀ c ∈ T, c ≠ '<')
    (hl : (docSpan T).length < npos) (m : Nat) :
    ParseHTML (m + 4) junk (docSpan T) = Outcome.done [] := by
  unfold ParseHTML
  rw [outer_continue junk (docSpan T) ⟨0, 3, T.length + 16, T.length + 13, npos⟩ (m + 3) 0 0 []
      ⟨T.length + 16, [], 0 + 3⟩ (docSpan_par_0 T hT hl) (docSpan_inner_par junk T hT hl [] 0 m)
      (by show npos ≠ 0; decide)]
  exact outer_exit junk (docSpan T) tag.empty (m + 2) (T.length + 16) (0 + 3) [] ⟨3, [], 0 + 3 + 1⟩
    (docSpan_par_e T hT hl) (docSpan_inner_last junk T hT hl [] (0 + 3) (m + 1)) rfl

/-! ## The document `<p><sup>T</sup></p>` -/

theorem docSup_eq (T : List Char) : docSup T =
    '<' :: 'p' :: '>' :: '<' :: 's' :: 'u' :: 'p' :: '>' :: (T ++ ['<', '/', 's', 'u', 'p', '>', '<', '/', 'p', '>']) := by
  simp [docSup]

theorem docSup_length (T : List Char) : (docSup T).length = T.length + 18 := by
  simp [docSup_eq]

theorem docSup_drop_0 (T : List Char) : (docSup T).drop 0 =
    '<' :: 'p' :: '>' :: '<' :: 's' :: 'u' :: 'p' :: '>' :: (T ++ ['<', '/', 's', 'u', 'p', '>', '<', '/', 'p', '>']) := by
  simp [docSup_eq]

theorem docSup_drop_3 (T : List Char) : (docSup T).drop 3 =
    '<' :: 's' :: 'u' :: 'p' :: '>' :: (T ++ ['<', '/', 's', 'u', 'p', '>', '<', '/', 'p', '>']) := by
  simp [docSup_eq]

theorem docSup_drop_a (T : List Char) : (docSup T).drop 8 = T ++ ['<', '/', 's', 'u', 'p', '>', '<', '/', 'p', '>'] := by
  simp [docSup_eq]

theorem docSup_drop_t (T : List Char) : (docSup T).drop (T.length + 8) = ['<', '/', 's', 'u', 'p', '>', '<', '/', 'p', '>'] := by
  rw [show T.length + 8 = 8 + T.length from Nat.add_comm _ _, ← List.drop_drop, docSup_drop_a]
  simp

theorem docSup_drop_e (T : List Char) : (docSup T).drop (T.length + 14) = ['<', '/', 'p', '>'] := by
  rw [show T.length + 14 = (T.length + 8) + 6 by omega, ← List.drop_drop, docSup_drop_t]
  simp

theorem docSup_find_p_0 (T : List Char) (hT : ∀ c ∈ T, c ≠ '<')
    (hl : (docSup T).length < npos) : find (docSup T) ['<', 'p'] (0) = 0 := by
  have hlen := docSup_length T
  rw [find_of_le _ _ _ (by omega), docSup_drop_0]
  simp [findAux, findAux_skip _ _ T _ _ hT]
  try omega

theorem docSup_find_gt_0 (T : List Char) (hT : ∀ c ∈ T, c ≠ '<')
    (hl : (docSup T).length < npos) : find (docSup T) ['>'] (0) = 2 := by
  have hlen := docSup_length T
  rw [find_of_le _ _ _ (by omega), docSup_drop_0]
  simp [findAux, findAux_skip _ _ T _ _ hT]
  try omega

theorem docSup_find_cp_3 (T : List Char) (hT : ∀ c ∈ T, c ≠ '<')
    (hl : (docSup T).length < npos) : find (docSup T) ['<', '/', 'p', '>'] (3) = T.length + 14 := by
  have hlen := docSup_length T
  rw [find_of_le _ _ _ (by omega), docSup_drop_3]
  simp [findAux, findAux_skip _ _ T _ _ hT]
  try omega

theorem docSup_find_p_e (T : List Char) (hT : ∀ c ∈ T, c ≠ '<')
    (hl : (docSup T).length < npos) : find (docSup T) ['<', 'p'] (T.length + 14) = npos := by
  have hlen := docSup_length T
  rw [find_of_le _ _ _ (by omega), docSup_drop_e]
  simp [findAux, findAux_skip _ _ T _ _ hT]
  try omega

theorem docSup_find_lt_0 (T : List Char) (hT : ∀ c ∈ T, c ≠ '<')
    (hl : (docSup T).length < npos) : find (docSup T) ['<'] (0) = 0 := by
  have hlen := docSup_length T
  rw [find_of_le _ _ _ (by omega), docSup_drop_0]
  simp [findAux, findAux_skip _ _ T _ _ hT]
  try omega

theorem docSup_find_cany_3 (T : List Char) (hT : ∀ c ∈ T, c ≠ '<')
    (hl : (docSup T).length < npos) : find (docSup T) ['<', '/', '>'] (3) = npos := by
  have hlen := docSup_length T
  rw [find_of_le _ _ _ (by omega), docSup_drop_3]
  simp [findAux, findAux_skip _ _ T _ _ hT]
  try omega

theorem docSup_find_lt_3 (T : List Char) (hT : ∀ c ∈ T, c ≠ '<')
    (hl : (docSup T).length < npos) : find (docSup T) ['<'] (3) = 3 := by
  have hlen := docSup_length T
  rw [find_of_le _ _ _ (by omega), docSup_drop_3]
  simp [findAux, findAux_skip _ _ T _ _ hT]
  try omega

theorem docSup_find_name_0 (T : List Char) (hT : ∀ c ∈ T, c ≠ '<')
    (hl : (docSup T).length < npos) : find (docSup T) ['<', 's', 'u', 'p'] (0) = 3 := by
  have hlen := docSup_length T
  rw [find_of_le _ _ _ (by omega), docSup_drop_0]
  simp [findAux, findAux_skip _ _ T _ _ hT]
  try omega

theorem docSup_find_gt_3 (T : List Char) (hT : ∀ c ∈ T, c ≠ '<')
    (hl : (docSup T).length < npos) : find (docSup T) ['>'] (3) = 7 := by
  have hlen := docSup_length T
  rw [find_of_le _ _ _ (by omega), docSup_drop_3]
  simp [findAux, findAux_skip _ _ T _ _ hT]
  try omega

theorem docSup_find_cname_a (T : List Char) (hT : ∀ c ∈ T, c ≠ '<')
    (hl : (docSup T).length < npos) : find (docSup T) ['<', '/', 's', 'u', 'p', '>'] (8) = T.length + 8 := by
  have hlen := docSup_length T
  rw [find_of_le _ _ _ (by omega), docSup_drop_a]
  simp [findAux, findAux_skip _ _ T _ _ hT]
  try omega

theorem docSup_find_name_t (T : List Char) (hT : ∀ c ∈ T, c ≠ '<')
    (hl : (docSup T).length < npos) : find (docSup T) ['<', 's', 'u', 'p'] (T.length + 8) = npos := by
  have hlen := docSup_length T
  rw [find_of_le _ _ _ (by omega), docSup_drop_t]
  simp [findAux, findAux_skip _ _ T _ _ hT]
  try omega

theorem docSup_find_other_0 (T : List Char) (hT : ∀ c ∈ T, c ≠ '<')
    (hl : (docSup T).length < npos) : find (docSup T) ['<', 's', 'p', 'a', 'n'] (0) = npos := by
  have hlen := docSup_length T
  rw [find_of_le _ _ _ (by omega), docSup_drop_0]
  simp [findAux, findAux_skip _ _ T _ _ hT]
  try omega

theorem docSup_find_cany_a (T : List Char) (hT : ∀ c ∈ T, c ≠ '<')
    (hl : (docSup T).length < npos) : find (docSup T) ['<', '/', '>'] (8) = npos := by
  have hlen := docSup_length T
  rw [find_of_le _ _ _ (by omega), docSup_drop_a]
  simp [findAux, findAux_skip _ _ T _ _ hT]
  try omega

theorem docSup_find_lt_a (T : List Char) (hT : ∀ c ∈ T, c ≠ '<')
    (hl : (docSup T).length < npos) : find (docSup T) ['<'] (8) = T.length + 8 := by
  have hlen := docSup_length T
  rw [find_of_le _ _ _ (by omega), docSup_drop_a]
  simp [findAux, findAux_skip _ _ T _ _ hT]
  try omega

theorem docSup_find_lt_t (T : List Char) (hT : ∀ c ∈ T, c ≠ '<')
    (hl : (docSup T).length < npos) : find (docSup T) ['<'] (T.length + 8) = T.length + 8 := by
  have hlen := docSup_length T
  rw [find_of_le _ _ _ (by omega), docSup_drop_t]
  simp [findAux, findAux_skip _ _ T _ _ hT]
  try omega

theorem docSup_find_name_3 (T : List Char) (hT : ∀ c ∈ T, c ≠ '<')
    (hl : (docSup T).length < npos) : find (docSup T) ['<', 's', 'u', 'p'] (3) = 3 := by
  have hlen := docSup_length T
  rw [find_of_le _ _ _ (by omega), docSup_drop_3]
  simp [findAux, findAux_skip _ _ T _ _ hT]
  try omega

theorem docSup_find_other_3 (T : List Char) (hT : ∀ c ∈ T, c ≠ '<')
    (hl : (docSup T).length < npos) : find (docSup T) ['<', 's', 'p', 'a', 'n'] (3) = npos := by
  have hlen := docSup_length T
  rw [find_of_le _ _ _ (by omega), docSup_drop_3]
  simp [findAux, findAux_skip _ _ T _ _ hT]
  try omega

theorem docSup_find_i_a (T : List Char) (hT : ∀ c ∈ T, c ≠ '<')
    (hl : (docSup T).length < npos) : find (docSup T) ['<', 'i'] (8) = npos := by
  have hlen := docSup_length T
  rw [find_of_le _ _ _ (by omega), docSup_drop_a]
  simp [findAux, findAux_skip _ _ T _ _ hT]
  try omega

theorem docSup_find_gt_t (T : List Char) (hT : ∀ c ∈ T, c ≠ '<')
    (hl : (docSup T).length < npos) : find (docSup T) ['>'] (T.length + 8) = T.length + 13 := by
  have hlen := docSup_length T
  rw [find_of_le _ _ _ (by omega), docSup_drop_t]
  simp [findAux, findAux_skip _ _ T _ _ hT]
  try omega

theorem docSup_find_cany_e (T : List Char) (hT : ∀ c ∈ T, c ≠ '<')
    (hl : (docSup T).length < npos) : find (docSup T) ['<', '/', '>'] (T.length + 14) = npos := by
  have hlen := docSup_length T
  rw [find_of_le _ _ _ (by omega), docSup_drop_e]
  simp [findAux, findAux_skip _ _ T _ _ hT]
  try omega

theorem docSup_find_lt_e (T : List Char) (hT : ∀ c ∈ T, c ≠ '<')
    (hl : (docSup T).length < npos) : find (docSup T) ['<'] (T.length + 14) = T.length + 14 := by
  have hlen := docSup_length T
  rw [find_of_le _ _ _ (by omega), docSup_drop_e]
  simp [findAux, findAux_skip _ _ T _ _ hT]
  try omega

theorem docSup_find_other_t (T : List Char) (hT : ∀ c ∈ T, c ≠ '<')
    (hl : (docSup T).length < npos) : find (docSup T) ['<', 's', 'p', 'a', 'n'] (T.length + 8) = npos := by
  have hlen := docSup_length T
  rw [find_of_le _ _ _ (by omega), docSup_drop_t]
  simp [findAux, findAux_skip _ _ T _ _ hT]
  try omega

theorem docSup_par_0 (T : List Char) (hT : ∀ c ∈ T, c ≠ '<')
    (hl : (docSup T).length < npos) :
    StringParser (docSup T) (0) "p".toList = ⟨0, 3, T.length + 14, T.length + 11, npos⟩ := by
  have hlen := docSup_length T
  have hn := npos_eq
  exact StringParser_found _ _ _ (0) (2) (3) (T.length + 14) (T.length + 11) (npos) (docSup_find_p_0 T hT hl) (by omega) (docSup_find_gt_0 T hT hl)
    (by unfold sadd; omega) (docSup_find_cp_3 T hT hl) (by omega)
    (by unfold ssub; omega) (docSup_find_p_e T hT hl)

theorem docSup_any_0 (T : List Char) (hT : ∀ c ∈ T, c ≠ '<')
    (hl : (docSup T).length < npos) :
    StringParser (docSup T) (0) [] = ⟨0, 3, 3, 0, 3⟩ := by
  have hlen := docSup_length T
  have hn := npos_eq
  exact StringParser_fallback _ _ _ (0) (2) (3) (3) (0) (3) (docSup_find_lt_0 T hT hl) (by omega) (docSup_find_gt_0 T hT hl)
    (by unfold sadd; omega) (docSup_find_cany_3 T hT hl) (docSup_find_lt_3 T hT hl)
    (by unfold ssub; omega) (docSup_find_lt_3 T hT hl)

theorem docSup_name_0 (T : List Char) (hT : ∀ c ∈ T, c ≠ '<')
    (hl : (docSup T).length < npos) :
    StringParser (docSup T) (0) "sup".toList = ⟨3, 8, T.length + 8, T.length, npos⟩ := by
  have hlen := docSup_length T
  have hn := npos_eq
  exact StringParser_found _ _ _ (3) (7) (8) (T.length + 8) (T.length) (npos) (docSup_find_name_0 T hT hl) (by omega) (docSup_find_gt_3 T hT hl)
    (by unfold sadd; omega) (docSup_find_cname_a T hT hl) (by omega)
    (by unfold ssub; omega) (docSup_find_name_t T hT hl)

theorem docSup_other_0 (T : List Char) (hT : ∀ c ∈ T, c ≠ '<')
    (hl : (docSup T).length < npos) :
    StringParser (docSup T) (0) "span".toList = tag.empty := by
  have hlen := docSup_length T
  have hn := npos_eq
  exact StringParser_none _ _ _ (docSup_find_other_0 T hT hl)

theorem docSup_any_3 (T : List Char) (hT : ∀ c ∈ T, c ≠ '<')
    (hl : (docSup T).length < npos) :
    StringParser (docSup T) (3) [] = ⟨3, 8, T.length + 8, T.length, T.length + 8⟩ := by
  have hlen := docSup_length T
  have hn := npos_eq
  exact StringParser_fallback _ _ _ (3) (7) (8) (T.length + 8) (T.length) (T.length + 8) (docSup_find_lt_3 T hT hl) (by omega) (docSup_find_gt_3 T hT hl)
    (by unfold sadd; omega) (docSup_find_cany_a T hT hl) (docSup_find_lt_a T hT hl)
    (by unfold ssub; omega) (docSup_find_lt_t T hT hl)

theorem docSup_name_3 (T : List Char) (hT : ∀ c ∈ T, c ≠ '<')
    (hl : (docSup T).length < npos) :
    StringParser (docSup T) (3) "sup".toList = ⟨3, 8, T.length + 8, T.length, npos⟩ := by
  have hlen := docSup_length T
  have hn := npos_eq
  exact StringParser_found _ _ _ (3) (7) (8) (T.length + 8) (T.length) (npos) (docSup_find_name_3 T hT hl) (by omega) (docSup_find_gt_3 T hT hl)
    (by unfold sadd; omega) (docSup_find_cname_a T hT hl) (by omega)
    (by unfold ssub; omega) (docSup_find_name_t T hT hl)

theorem docSup_other_3 (T : List Char) (hT : ∀ c ∈ T, c ≠ '<')
    (hl : (docSup T).length < npos) :
    StringParser (docSup T) (3) "span".toList = tag.empty := by
  have hlen := docSup_length T
  have hn := npos_eq
  exact StringParser_none _ _ _ (docSup_find_other_3 T hT hl)

theorem docSup_i_a (T : List Char) (hT : ∀ c ∈ T, c ≠ '<')
    (hl : (docSup T).length < npos) :
    StringParser (docSup T) (8) "i".toList = tag.empty := by
  have hlen := docSup_length T
  have hn := npos_eq
  exact StringParser_none _ _ _ (docSup_find_i_a T hT hl)

theorem docSup_any_t (T : List Char) (hT : ∀ c ∈ T, c ≠ '<')
    (hl : (docSup T).length < npos) :
    StringParser (docSup T) (T.length + 8) [] = ⟨T.length + 8, T.length + 14, T.length + 14, 0, T.length + 14⟩ := by
  have hlen := docSup_length T
  have hn := npos_eq
  exact StringParser_fallback _ _ _ (T.length + 8) (T.length + 13) (T.length + 14) (T.length + 14) (0) (T.length + 14) (docSup_find_lt_t T hT hl) (by omega) (docSup_find_gt_t T hT hl)
    (by unfold sadd; omega) (docSup_find_cany_e T hT hl) (docSup_find_lt_e T hT hl)
    (by unfold ssub; omega) (docSup_find_lt_e T hT hl)

theorem docSup_name_t (T : List Char) (hT : ∀ c ∈ T, c ≠ '<')
    (hl : (docSup T).length < npos) :
    StringParser (docSup T) (T.length + 8) "sup".toList = tag.empty := by
  have hlen := docSup_length T
  have hn := npos_eq
  exact StringParser_none _ _ _ (docSup_find_name_t T hT hl)

theorem docSup_other_t (T : List Char) (hT : ∀ c ∈ T, c ≠ '<')
    (hl : (docSup T).length < npos) :
    StringParser (docSup T) (T.length + 8) "span".toList = tag.empty := by
  have hlen := docSup_length T
  have hn := npos_eq
  exact StringParser_none _ _ _ (docSup_find_other_t T hT hl)

theorem docSup_par_e (T : List Char) (hT : ∀ c ∈ T, c ≠ '<')
    (hl : (docSup T).length < npos) :
    StringParser (docSup T) (T.length + 14) "p".toList = tag.empty := by
  have hlen := docSup_length T
  have hn := npos_eq
  exact StringParser_none _ _ _ (docSup_find_p_e T hT hl)

theorem docSup_body_0 (junk : Nat → Nat → Char) (T : List Char) (hT : ∀ c ∈ T, c ≠ '<')
    (hl : (docSup T).length < npos) (out : List Char) (k : Nat) :
    ParseHTML.body junk (docSup T) ⟨0, out, k⟩
      = some (⟨0, 3, 3, 0, 3⟩, ⟨3, out, k + 1⟩) := by
  have hlen := docSup_length T
  have h := body_write junk (docSup T) 0 k out [] ⟨0, 3, 3, 0, 3⟩ (tag.empty) (⟨3, 8, T.length + 8, T.length, npos⟩)
    (docSup_any_0 T hT hl) (docSup_other_0 T hT hl) (docSup_name_0 T hT hl)
    (by constructor <;> simp [tag.empty]) (by simp [WriteFile])
  rw [List.append_nil] at h
  exact h

theorem docSup_body_3 (junk : Nat → Nat → Char) (T : List Char) (hT : ∀ c ∈ T, c ≠ '<')
    (hl : (docSup T).length < npos) (out : List Char) (k : Nat) :
    ParseHTML.body junk (docSup T) ⟨3, out, k⟩
      = some (⟨3, 8, T.length + 8, T.length, T.length + 8⟩, ⟨T.length + 8, out, k + 1⟩) := by
  have hlen := docSup_length T
  exact body_skip junk (docSup T) 3 k (T.length + 8) out ⟨3, 8, T.length + 8, T.length, T.length + 8⟩
    (tag.empty) (⟨3, 8, T.length + 8, T.length, npos⟩) tag.empty
    (docSup_any_3 T hT hl) (docSup_other_3 T hT hl) (docSup_name_3 T hT hl)
    (by simp [tag.empty]) (docSup_i_a T hT hl) (by simp [tag.empty]) (by simp [tag.empty])

theorem docSup_body_t (junk : Nat → Nat → Char) (T : List Char) (hT : ∀ c ∈ T, c ≠ '<')
    (hl : (docSup T).length < npos) (out : List Char) (k : Nat) :
    ParseHTML.body junk (docSup T) ⟨T.length + 8, out, k⟩
      = some (⟨T.length + 8, T.length + 14, T.length + 14, 0, T.length + 14⟩, ⟨T.length + 14, out, k + 1⟩) := by
  have hlen := docSup_length T
  have h := body_write junk (docSup T) (T.length + 8) k out [] ⟨T.length + 8, T.length + 14, T.length + 14, 0, T.length + 14⟩
    (tag.empty) (tag.empty)
    (docSup_any_t T hT hl) (docSup_other_t T hT hl) (docSup_name_t T hT hl)
    (by constructor <;> simp [tag.empty]) (by simp [WriteFile])
  rw [List.append_nil] at h
  exact h

theorem docSup_inner_par (junk : Nat → Nat → Char) (T : List Char) (hT : ∀ c ∈ T, c ≠ '<')
    (hl : (docSup T).length < npos) (out : List Char) (k m : Nat) :
    ParseHTML.inner junk (docSup T) ⟨0, 3, T.length + 14, T.length + 11, npos⟩ (m + 3) ⟨0, out, k⟩
      = Outcome.done ⟨T.length + 14, out, k + 3⟩ := by
  rw [inner_continue junk (docSup T) _ (m + 2) _ _ _ (docSup_body_0 junk T hT hl out k)
      (by show 3 < T.length + 14; omega),
    inner_continue junk (docSup T) _ (m + 1) _ _ _ (docSup_body_3 junk T hT hl out (k + 1))
      (by show 8 < T.length + 14; omega),
    inner_exit junk (docSup T) _ m _ _ _ (docSup_body_t junk T hT hl out (k + 1 + 1))
      (by show ¬ T.length + 14 < T.length + 14; omega)]

theorem docSup_inner_last (junk : Nat → Nat → Char) (T : List Char) (hT : ∀ c ∈ T, c ≠ '<')
    (hl : (docSup T).length < npos) (out : List Char) (k m : Nat) :
    ParseHTML.inner junk (docSup T) tag.empty (m + 1) ⟨0, out, k⟩
      = Outcome.done ⟨3, out, k + 1⟩ :=
  inner_exit junk (docSup T) _ m _ _ _ (docSup_body_0 junk T hT hl out k)
    (by show ¬ 3 < 0; omega)

theorem docSup_ParseHTML (junk : Nat → Nat → Char) (T : List Char) (hT : ∀ c ∈ T, c ≠ '<')
    (hl : (docSup T).length < npos) (m : Nat) :
    ParseHTML (m + 4) junk (docSup T) = Outcome.done [] := by
  unfold ParseHTML
  rw [outer_continue junk (docSup T) ⟨0, 3, T.length + 14, T.length + 11, npos⟩ (m + 3) 0 0 []
      ⟨T.length + 14, [], 0 + 3⟩ (docSup_par_0 T hT hl) (docSup_inner_par junk T hT hl [] 0 m)
      (by show npos ≠ 0; decide)]
  exact outer_exit junk (docSup T) tag.empty (m + 2) (T.length + 14) (0 + 3) [] ⟨3, [], 0 + 3 + 1⟩
    (docSup_par_e T hT hl) (docSup_inner_last junk T hT hl [] (0 + 3) (m + 1)) rfl


/-- C5: for every text `T` without `<`, `ParseHTML` writes nothing on
`<p><span>T</span></p>` and nothing on `<p><sup>T</sup></p>` (the documents being
strings, hence shorter than `npos`), whatever the initial content of the buffer and for
every iteration budget from 4 on. -/
theorem ParseHTML_decorative_discarded (junk : Nat → Nat → Char) (T : List Char) (m : Nat)
    (hT : '<' ∉ T) (hl : (docSpan T).length < npos) :
    ParseHTML (m + 4) junk ("<p><span>".toList ++ T ++ "</span></p>".toList) = Outcome.done []
      ∧ ParseHTML (m + 4) junk ("<p><sup>".toList ++ T ++ "</sup></p>".toList)
          = Outcome.done [] := by
  have hT1 : ∀ c ∈ T, c ≠ '<' := fun c hc e => hT (e ▸ hc)
  have hl2 : (docSup T).length < npos := by
    rw [docSpan_length] at hl
    rw [docSup_length]
    omega
  exact ⟨docSpan_ParseHTML junk T hT1 hl m, docSup_ParseHTML junk T hT1 hl2 m⟩

/-- Witness of C5 on the text `Dropped`. -/
theorem ParseHTML_decorative_discarded_witness :
    '<' ∉ "Dropped".toList ∧ (docSpan "Dropped".toList).length < npos
      ∧ (ParseHTML (0 + 4) (fun _ _ => 'x')
            ("<p><span>".toList ++ "Dropped".toList ++ "</span></p>".toList) = Outcome.done []
        ∧ ParseHTML (0 + 4) (fun _ _ => 'x')
            ("<p><sup>".toList ++ "Dropped".toList ++ "</sup></p>".toList) = Outcome.done []) :=
  ⟨by decide, by decide,
   ParseHTML_decorative_discarded (fun _ _ => 'x') "Dropped".toList 0 (by decide) (by decide)⟩

/-! ## Facts about `WikiCrawler` -/

theorem selectHref_ge (script : List Char) (c : Nat) (hs : script.length < npos)
    (h : selectHref script c ≠ npos) : c ≤ selectHref script c := by
  unfold selectHref at h ⊢
  simp only at h ⊢
  split at h
  · rename_i hin
    rw [if_pos hin]
    have h1 := find_found script "href".toList _ (by decide) h
    have h0 : find script "href".toList c ≠ npos := by
      intro hc; rw [hc] at hin; omega
    have h2 := find_found script "href".toList c (by decide) h0
    omega
  · rename_i hin
    rw [if_neg hin]
    exact (find_found script "href".toList c (by decide) h).1

/-- The value returned by `WikiCrawler` once the two quotes after the chosen `href`
are located. -/
theorem WikiCrawler_eq (script : List Char) (c q1 q2 : Nat) (hs : script.length < npos)
    (hq1 : find script [quote] (selectHref script c) = q1) (hq1n : q1 ≠ npos)
    (hq2 : find script [quote] (q1 + 1) = q2) (hq2n : q2 ≠ npos) :
    q1 < q2 ∧ q2 < script.length ∧
    WikiCrawler script c = some
      ⟨if find script "File:".toList (q1 + 1) < q2 then []
       else if find script "/wiki".toList (q1 + 1) = q1 + 1 then
         (script.drop (q1 + 2)).take (ssub (ssub q2 (q1 + 1)) 1)
       else [], q2⟩ := by
  subst hq1 hq2
  have f1 := find_found script [quote] _ (by decide) hq1n
  have f2 := find_found script [quote] _ (by decide) hq2n
  have hn := npos_eq
  have e1 : sadd (find script [quote] (selectHref script c)) 1
      = find script [quote] (selectHref script c) + 1 := sadd_eq _ _ (by omega)
  refine ⟨by omega, f2.2.1, ?_⟩
  unfold WikiCrawler
  simp only [e1]
  have e2 : sadd (find script [quote] (selectHref script c) + 1) 1
      = find script [quote] (selectHref script c) + 2 := by
    rw [sadd_eq _ _ (by omega)]
  have e3 : substr script (find script [quote] (selectHref script c) + 2)
      (ssub (ssub (find script [quote] (find script [quote] (selectHref script c) + 1))
        (find script [quote] (selectHref script c) + 1)) 1)
      = some ((script.drop (find script [quote] (selectHref script c) + 2)).take
          (ssub (ssub (find script [quote] (find script [quote] (selectHref script c) + 1))
        (find script [quote] (selectHref script c) + 1)) 1)) := by
    unfold substr
    rw [if_neg (by omega)]
  rw [e2, e3]
  simp only
  split
  · rfl
  · split <;> rfl


theorem quote_not_head_of_wiki (l rest : List Char) (d : Nat) (hd : d < 5)
    (hl : "/wiki".toList ++ rest = l) : [quote].isPrefixOf (l.drop d) = false := by
  subst hl
  interval_cases d <;> exact isPrefixOf_cons_ne _ _ _ _ (by decide)

theorem isPrefixOf_singleton_drop (l : List Char) (i : Nat) (c : Char) (h : i < l.length)
    (hc : l[i] = c) : [c].isPrefixOf (l.drop i) = true := by
  rw [List.drop_eq_getElem_cons h]
  simp [hc]

/-- The two outcomes of `WikiCrawler` once the quotes at `q1` and `q2` are located:
a rejection, or the text between `q1 + 2` and `q2`. -/
theorem WikiCrawler_cases (script : List Char) (c q1 q2 : Nat) (hs : script.length < npos)
    (hq1 : find script [quote] (selectHref script c) = q1) (hq1n : q1 ≠ npos)
    (hq2 : find script [quote] (q1 + 1) = q2) (hq2n : q2 ≠ npos) :
    (WikiCrawler script c = some ⟨[], q2⟩
      ∧ ¬ ("/wiki".toList.isPrefixOf (script.drop (q1 + 1)) = true
          ∧ ∀ p, q1 + 1 ≤ p → p < q2 → "File:".toList.isPrefixOf (script.drop p) = false))
    ∨ (WikiCrawler script c = some ⟨(script.drop (q1 + 2)).take (q2 - (q1 + 2)), q2⟩
      ∧ "/wiki".toList.isPrefixOf (script.drop (q1 + 1)) = true
      ∧ (∀ p, q1 + 1 ≤ p → p < q2 → "File:".toList.isPrefixOf (script.drop p) = false)
      ∧ q1 + 6 ≤ q2) := by
  obtain ⟨hlt, hlen, hW⟩ := WikiCrawler_eq script c q1 q2 hs hq1 hq1n hq2 hq2n
  have hn := npos_eq
  by_cases hF : find script "File:".toList (q1 + 1) < q2
  · left
    rw [if_pos hF] at hW
    refine ⟨hW, ?_⟩
    rintro ⟨_, hno⟩
    have hne : find script "File:".toList (q1 + 1) ≠ npos := by omega
    have ff := find_found script "File:".toList (q1 + 1) (by decide) hne
    rw [hno _ ff.1 hF] at ff
    exact absurd ff.2.2.1 (by simp)
  · rw [if_neg hF] at hW
    have hno : ∀ p, q1 + 1 ≤ p → p < q2 →
        "File:".toList.isPrefixOf (script.drop p) = false := by
      intro p hp1 hp2
      by_contra hcon
      have hocc : "File:".toList.isPrefixOf (script.drop p) = true := by
        cases hb : "File:".toList.isPrefixOf (script.drop p)
        · exact absurd hb hcon
        · rfl
      have := find_le_of_occurs script "File:".toList (q1 + 1) p (by decide) hs hp1 hocc
      omega
    by_cases hWk : find script "/wiki".toList (q1 + 1) = q1 + 1
    · right
      rw [if_pos hWk] at hW
      have hne : find script "/wiki".toList (q1 + 1) ≠ npos := by omega
      have fw := find_found script "/wiki".toList (q1 + 1) (by decide) hne
      rw [hWk] at fw
      have hpre : "/wiki".toList.isPrefixOf (script.drop (q1 + 1)) = true := fw.2.2.1
      obtain ⟨rest, hrest⟩ := List.isPrefixOf_iff_prefix.mp hpre
      have f2 := find_found script [quote] (q1 + 1) (by decide) (by rw [hq2]; exact hq2n)
      rw [hq2] at f2
      have hge : q1 + 6 ≤ q2 := by
        by_contra hcon
        have hd : q2 - (q1 + 1) < 5 := by omega
        have := quote_not_head_of_wiki _ rest (q2 - (q1 + 1)) hd hrest
        rw [List.drop_drop, show q1 + 1 + (q2 - (q1 + 1)) = q2 by omega] at this
        rw [this] at f2
        exact absurd f2.2.2.1 (by simp)
      have es : ssub (ssub q2 (q1 + 1)) 1 = q2 - (q1 + 2) := by
        rw [ssub_eq q2 (q1 + 1) (by omega) (by omega), ssub_eq _ 1 (by omega) (by omega)]
        omega
      rw [es] at hW
      exact ⟨hW, hpre, hno, hge⟩
    · left
      rw [if_neg hWk] at hW
      refine ⟨hW, ?_⟩
      rintro ⟨hpre, _⟩
      have := find_le_of_occurs script "/wiki".toList (q1 + 1) (q1 + 1) (by decide) hs
        (Nat.le_refl _) hpre
      have hne := this.2
      have fw := find_found script "/wiki".toList (q1 + 1) (by decide) hne
      omega


/-- C9: when the chosen `href` is followed by a first quote at `q1` and a next quote at
`q2`, `WikiCrawler` returns the position `q2`; the returned name is non-empty exactly
when `/wiki` stands at `q1 + 1` and no `File:` starts in `[q1 + 1, q2)`, and then the
name is the text of `[q1 + 2, q2)`, which begins with `wiki` and holds no quote. -/
theorem WikiCrawler_candidate (script : List Char) (c q1 q2 : Nat)
    (hs : script.length < npos)
    (hq1 : find script [quote] (selectHref script c) = q1) (hq1n : q1 ≠ npos)
    (hq2 : find script [quote] (q1 + 1) = q2) (hq2n : q2 ≠ npos) :
    q1 < q2 ∧ ∃ r, WikiCrawler script c = some r ∧ r.pos = q2
      ∧ (r.url ≠ [] ↔
          ("/wiki".toList.isPrefixOf (script.drop (q1 + 1)) = true
            ∧ ∀ p, q1 + 1 ≤ p → p < q2 →
                "File:".toList.isPrefixOf (script.drop p) = false))
      ∧ (r.url ≠ [] →
          r.url = (script.drop (q1 + 2)).take (q2 - (q1 + 2))
            ∧ "wiki".toList.isPrefixOf r.url = true ∧ quote ∉ r.url) := by
  have hlt := (WikiCrawler_eq script c q1 q2 hs hq1 hq1n hq2 hq2n).1
  refine ⟨hlt, ?_⟩
  rcases WikiCrawler_cases script c q1 q2 hs hq1 hq1n hq2 hq2n with
    ⟨hW, hrej⟩ | ⟨hW, hpre, hno, hge⟩
  · refine ⟨_, hW, rfl, ?_, ?_⟩
    · constructor
      · intro h; exact absurd rfl h
      · intro h; exact absurd h hrej
    · intro h; exact absurd rfl h
  · obtain ⟨rest, hrest⟩ := List.isPrefixOf_iff_prefix.mp hpre
    have hdrop : script.drop (q1 + 2) = 'w' :: 'i' :: 'k' :: 'i' :: rest := by
      have : script.drop (q1 + 2) = (script.drop (q1 + 1)).drop 1 := by
        rw [List.drop_drop]
      rw [this, ← hrest]
      rfl
    obtain ⟨m, hm⟩ : ∃ m, q2 - (q1 + 2) = m + 4 := ⟨q2 - (q1 + 2) - 4, by omega⟩
    have hslice : (script.drop (q1 + 2)).take (q2 - (q1 + 2))
        = 'w' :: 'i' :: 'k' :: 'i' :: rest.take m := by
      rw [hdrop, hm]
      rfl
    have f2 := find_found script [quote] (q1 + 1) (by decide) (by rw [hq2]; exact hq2n)
    rw [hq2] at f2
    have hnq : quote ∉ (script.drop (q1 + 2)).take (q2 - (q1 + 2)) := by
      intro hmem
      obtain ⟨i, hi, hget⟩ := List.getElem_of_mem hmem
      rw [List.length_take, List.length_drop] at hi
      have hb : q1 + 2 + i < script.length := by omega
      have hsc : script[q1 + 2 + i] = quote := by
        rw [← hget]
        simp [List.getElem_take, List.getElem_drop]
      have hocc := isPrefixOf_singleton_drop script (q1 + 2 + i) quote hb hsc
      rw [f2.2.2.2 (q1 + 2 + i) (by omega) (by omega)] at hocc
      exact absurd hocc (by simp)
    refine ⟨_, hW, rfl, ?_, ?_⟩
    · constructor
      · intro _; exact ⟨hpre, hno⟩
      · intro _
        show (script.drop (q1 + 2)).take (q2 - (q1 + 2)) ≠ []
        rw [hslice]
        exact List.cons_ne_nil _ _
    · intro _
      refine ⟨rfl, ?_, hnq⟩
      show "wiki".toList.isPrefixOf ((script.drop (q1 + 2)).take (q2 - (q1 + 2))) = true
      rw [hslice]
      exact List.isPrefixOf_iff_prefix.mpr ⟨rest.take m, rfl⟩


theorem selectHref_ne_npos (script : List Char) (c : Nat) (hs : script.length < npos)
    (h : find script [quote] (selectHref script c) ≠ npos) : selectHref script c ≠ npos := by
  intro hc
  exact h (find_past_end script [quote] _ (by rw [hc]; exact hs))

/-- Witness of C9 on the link `<a href="/wiki/Y">y</a>`. -/
theorem WikiCrawler_candidate_witness :
    docLink.length < npos ∧ find docLink [quote] (selectHref docLink 0) = 8
      ∧ find docLink [quote] (8 + 1) = 16
      ∧ WikiCrawler docLink 0 = some ⟨"wiki/Y".toList, 16⟩
      ∧ (8 < 16 ∧ ∃ r, WikiCrawler docLink 0 = some r ∧ r.pos = 16
          ∧ (r.url ≠ [] ↔
              ("/wiki".toList.isPrefixOf (docLink.drop (8 + 1)) = true
                ∧ ∀ p, 8 + 1 ≤ p → p < 16 →
                    "File:".toList.isPrefixOf (docLink.drop p) = false))
          ∧ (r.url ≠ [] →
              r.url = (docLink.drop (8 + 2)).take (16 - (8 + 2))
                ∧ "wiki".toList.isPrefixOf r.url = true ∧ quote ∉ r.url)) :=
  ⟨by decide, by decide, by decide, by decide,
   WikiCrawler_candidate docLink 0 8 16 (by decide) (by decide) (by decide) (by decide)
     (by decide)⟩

/-- C8: when the chosen `href` is followed by quotes at `q1` and `q2` and `File:` occurs
between them, `WikiCrawler` returns the empty name and the position `q2`, which lies
strictly after the cursor it was called with. -/
theorem WikiCrawler_file_rejected (script : List Char) (c q1 q2 : Nat)
    (hs : script.length < npos)
    (hq1 : find script [quote] (selectHref script c) = q1) (hq1n : q1 ≠ npos)
    (hq2 : find script [quote] (q1 + 1) = q2) (hq2n : q2 ≠ npos)
    (hF : ∃ p, q1 < p ∧ p < q2 ∧ "File:".toList.isPrefixOf (script.drop p) = true) :
    WikiCrawler script c = some ⟨[], q2⟩ ∧ c < q2 := by
  have hlt := (WikiCrawler_eq script c q1 q2 hs hq1 hq1n hq2 hq2n).1
  have hsel : selectHref script c ≠ npos :=
    selectHref_ne_npos script c hs (by rw [hq1]; exact hq1n)
  have hge := selectHref_ge script c hs hsel
  have f1 := find_found script [quote] (selectHref script c) (by decide)
    (by rw [hq1]; exact hq1n)
  rw [hq1] at f1
  refine ⟨?_, by omega⟩
  rcases WikiCrawler_cases script c q1 q2 hs hq1 hq1n hq2 hq2n with
    ⟨hW, _⟩ | ⟨_, _, hno, _⟩
  · exact hW
  · obtain ⟨p, hp1, hp2, hp3⟩ := hF
    rw [hno p (by omega) hp2] at hp3
    exact absurd hp3 (by simp)

/-- Witness of C8 on the file link of the specification. -/
theorem WikiCrawler_file_rejected_witness :
    docFile.length < npos ∧ find docFile [quote] (selectHref docFile 0) = 8
      ∧ find docFile [quote] (8 + 1) = 25
      ∧ (WikiCrawler docFile 0 = some ⟨[], 25⟩ ∧ 0 < 25) :=
  ⟨by decide, by decide, by decide,
   WikiCrawler_file_rejected docFile 0 8 25 (by decide) (by decide) (by decide) (by decide)
     (by decide) ⟨15, by decide, by decide, by decide⟩⟩

/-- C7: when the first `href` at or after the cursor lies strictly between the first
`<table` and the first `</table>` at or after the cursor, and the first `href` at or
after that `</table>` is followed by quotes at `q1` and `q2`, `WikiCrawler` takes its
candidate from that later `href`: the position returned is `q2`, beyond the end of the
table, and the name is empty or the text of `[q1 + 2, q2)`, which starts beyond it. -/
theorem WikiCrawler_skips_table (script : List Char) (c q1 q2 : Nat)
    (hs : script.length < npos)
    (h1 : find script "<table".toList c < find script "href".toList c)
    (h2 : find script "href".toList c < find script "</table>".toList c)
    (hq1 : find script [quote]
      (find script "href".toList (find script "</table>".toList c)) = q1)
    (hq1n : q1 ≠ npos)
    (hq2 : find script [quote] (q1 + 1) = q2) (hq2n : q2 ≠ npos) :
    selectHref script c = find script "href".toList (find script "</table>".toList c)
      ∧ find script "</table>".toList c ≤ selectHref script c
      ∧ ∃ r, WikiCrawler script c = some r ∧ r.pos = q2
          ∧ find script "</table>".toList c < r.pos
          ∧ (r.url = [] ∨
              (r.url = (script.drop (q1 + 2)).take (q2 - (q1 + 2))
                ∧ find script "</table>".toList c < q1 + 2)) := by
  have hsel : selectHref script c
      = find script "href".toList (find script "</table>".toList c) := by
    unfold selectHref
    simp only
    rw [if_pos ⟨h1, h2⟩]
  have hq1s : find script [quote] (selectHref script c) = q1 := by rw [hsel]; exact hq1
  have hlt := (WikiCrawler_eq script c q1 q2 hs hq1s hq1n hq2 hq2n).1
  have hne : selectHref script c ≠ npos :=
    selectHref_ne_npos script c hs (by rw [hq1s]; exact hq1n)
  have fh := find_found script "href".toList (find script "</table>".toList c) (by decide)
    (by rw [← hsel]; exact hne)
  have f1 := find_found script [quote] (selectHref script c) (by decide)
    (by rw [hq1s]; exact hq1n)
  rw [hq1s] at f1
  rw [← hsel] at fh
  refine ⟨hsel, fh.1, ?_⟩
  rcases WikiCrawler_cases script c q1 q2 hs hq1s hq1n hq2 hq2n with
    ⟨hW, _⟩ | ⟨hW, _, _, _⟩
  · exact ⟨_, hW, rfl, by show _ < q2; omega, Or.inl rfl⟩
  · exact ⟨_, hW, rfl, by show _ < q2; omega, Or.inr ⟨rfl, by omega⟩⟩

/-- Witness of C7 on the table example of the specification. -/
theorem WikiCrawler_skips_table_witness :
    docTable.length < npos
      ∧ find docTable "<table".toList 0 = 0 ∧ find docTable "href".toList 0 = 10
      ∧ find docTable "</table>".toList 0 = 30
      ∧ WikiCrawler docTable 0 = some ⟨"wiki/Y".toList, 54⟩
      ∧ (selectHref docTable 0
            = find docTable "href".toList (find docTable "</table>".toList 0)
          ∧ find docTable "</table>".toList 0 ≤ selectHref docTable 0
          ∧ ∃ r, WikiCrawler docTable 0 = some r ∧ r.pos = 54
              ∧ find docTable "</table>".toList 0 < r.pos
              ∧ (r.url = [] ∨
                  (r.url = (docTable.drop (46 + 2)).take (54 - (46 + 2))
                    ∧ find docTable "</table>".toList 0 < 46 + 2))) :=
  ⟨by decide, by decide, by decide, by decide, by decide,
   WikiCrawler_skips_table docTable 0 46 54 (by decide) (by decide) (by decide) (by decide)
     (by decide) (by decide) (by decide)⟩



/-- C6: on two adjacent tables, each holding a `/wiki` link, `WikiCrawler` called at
cursor 0 (outside every table) returns the name `wiki/Y`: the `href` it is taken from,
at offset 48, lies between the second `<table`, at offset 38, and its `</table>`, at
offset 68. -/
theorem WikiCrawler_link_in_second_table :
    WikiCrawler
        "<table><a href=\"/wiki/X\">x</a></table><table><a href=\"/wiki/Y\">y</a></table>".toList
        0 = some ⟨"wiki/Y".toList, 61⟩
      ∧ selectHref docTwoTables 0 = 48
      ∧ find docTwoTables "<table".toList 1 = 38
      ∧ find docTwoTables "</table>".toList 38 = 68
      ∧ find docTwoTables "<table".toList 0 = 0
      ∧ find docTwoTables "</table>".toList 0 = 30 := by
  decide

/-! ## The coordinator -/

theorem substr_length (script : List Char) (pos n : Nat) (l : List Char)
    (h : substr script pos n = some l) : l.length ≤ script.length := by
  unfold substr at h
  by_cases hp : script.length < pos
  · rw [if_pos hp] at h; exact absurd h (by simp)
  · rw [if_neg hp] at h
    injection h with h
    rw [← h, List.length_take, List.length_drop]
    omega

theorem WikiCrawler_url_length (script : List Char) (c : Nat) (r : crawler)
    (h : WikiCrawler script c = some r) : r.url.length ≤ script.length := by
  unfold WikiCrawler at h
  simp only at h
  generalize hsub : substr script _ _ = o at h
  cases o with
  | none => exact absurd h (by simp)
  | some page_name =>
    have hp := substr_length _ _ _ _ hsub
    simp only at h
    generalize find script "File:".toList _ = a at h
    generalize find script "/wiki".toList _ = b at h
    generalize find script [quote] _ = e at h
    by_cases h1 : a < e
    · rw [if_pos h1] at h
      injection h with h; rw [← h]; exact Nat.zero_le _
    · rw [if_neg h1] at h
      split at h
      · injection h with h; rw [← h]; exact hp
      · injection h with h; rw [← h]; exact Nat.zero_le _

theorem scanNames_succ (script : List Char) (n cursor : Nat) :
    scanNames script (n + 1) cursor
      = match WikiCrawler script cursor with
        | none => []
        | some c => if c.url = [] then scanNames script n c.pos
                    else c.url :: scanNames script n c.pos := rfl

theorem discover_succ (script : List Char) (fuel crawler_pos : Nat) :
    discover script (fuel + 1) crawler_pos
      = match WikiCrawler script crawler_pos with
        | none => Outcome.fault
        | some c => if c.url.length = 0 then discover script fuel c.pos
                    else Outcome.done c := rfl

theorem scanNames_ne_nil (script : List Char) :
    ∀ (n cursor : Nat) (name : List Char), name ∈ scanNames script n cursor → name ≠ [] := by
  intro n
  induction n with
  | zero => intro cursor name h; exact absurd h (List.not_mem_nil name)
  | succ n ih =>
    intro cursor name h
    rw [scanNames_succ] at h
    cases hW : WikiCrawler script cursor with
    | none => rw [hW] at h; simp at h
    | some c =>
      rw [hW] at h
      simp only at h
      by_cases hu : c.url = []
      · rw [if_pos hu] at h
        exact ih _ _ h
      · rw [if_neg hu] at h
        rcases List.mem_cons.mp h with h | h
        · rw [h]; exact hu
        · exact ih _ _ h

/-- The discovery loop stops at the first non-empty name of the scan. -/
theorem discover_scan (script : List Char) :
    ∀ (n cursor fuel : Nat), n ≤ fuel → scanNames script n cursor ≠ [] →
      ∃ c m, discover script fuel cursor = Outcome.done c ∧ c.url ≠ [] ∧ m ≤ n
        ∧ c.url.length ≤ script.length
        ∧ scanNames script n cursor = c.url :: scanNames script m c.pos := by
  intro n
  induction n with
  | zero => intro cursor fuel _ h; exact absurd rfl h
  | succ n ih =>
    intro cursor fuel hf h
    obtain ⟨f, rfl⟩ : ∃ f, fuel = f + 1 := ⟨fuel - 1, by omega⟩
    rw [scanNames_succ] at h ⊢
    rw [discover_succ]
    cases hW : WikiCrawler script cursor with
    | none => rw [hW] at h; exact absurd rfl h
    | some c =>
      rw [hW] at h
      simp only at h ⊢
      by_cases hu : c.url = []
      · rw [if_pos hu] at h ⊢
        rw [if_pos (by rw [hu]; rfl)]
        obtain ⟨c1, m, h1, h2, h3, h4, h5⟩ := ih c.pos f (by omega) h
        exact ⟨c1, m, h1, h2, by omega, h4, h5⟩
      · rw [if_neg hu]
        rw [if_neg (by intro hl; exact hu (List.length_eq_zero.mp hl))]
        exact ⟨c, n, rfl, hu, by omega, WikiCrawler_url_length script cursor c hW, rfl⟩

/-- The link loop sends the first `K` names of the scan, in order. -/
theorem linkLoop_scan (script : List Char) (recv : Nat → Nat) (fuel : Nat)
    (hs : script.length + 1 < 2 ^ 31) :
    ∀ (K n i cursor : Nat) (sent : List Send), n ≤ fuel →
      K ≤ (scanNames script n cursor).length →
      linkLoop fuel script recv K i cursor sent
        = Outcome.done (sent ++ linkMessages recv i ((scanNames script n cursor).take K)) := by
  intro K
  induction K with
  | zero =>
    intro n i cursor sent _ _
    simp [linkLoop, linkMessages]
  | succ K ih =>
    intro n i cursor sent hf hK
    have hne : scanNames script n cursor ≠ [] := by
      intro h; rw [h] at hK; simp at hK
    obtain ⟨c, m, h1, _, h3, h4, h5⟩ := discover_scan script n cursor fuel hf hne
    unfold linkLoop
    rw [h1]
    simp only
    rw [if_neg (by omega)]
    rw [h5] at hK ⊢
    rw [ih m (i + 1) c.pos _ (by omega) (by simpa using hK)]
    simp [linkMessages]

theorem terminations_dest (numprocs : Nat) :
    (terminations numprocs).map Send.dest = List.range' 1 (numprocs - 1) := by
  unfold terminations
  rw [List.map_map, List.range'_eq_map_range]
  apply List.map_congr_left
  intro j _
  simp [Nat.add_comm]

theorem terminations_payload (numprocs : Nat) :
    ∀ s ∈ terminations numprocs, s.payload = [NUL] := by
  intro s hs
  unfold terminations at hs
  obtain ⟨j, _, rfl⟩ := List.mem_map.mp hs
  rfl

/-- C10: when the scan of the seed page from the initial cursor yields at least `K`
non-empty names within `n` attempts, the coordinator (given that budget) sends exactly
`K` link messages, which carry in order the first `K` non-empty names of the scan, each
non-empty, and only then the termination character, once to each rank
`1 .. numprocs - 1`. -/
theorem coordinator_quota (script : List Char) (recv : Nat → Nat) (K numprocs n fuel : Nat)
    (hs : script.length + 1 < 2 ^ 31) (hf : n ≤ fuel)
    (hK : K ≤ (scanNames script n (StringParser script 0 "p".toList).start).length) :
    coordinator fuel script recv K numprocs
        = Outcome.done
            (linkMessages recv 0
                ((scanNames script n (StringParser script 0 "p".toList).start).take K)
              ++ terminations numprocs)
      ∧ ((scanNames script n (StringParser script 0 "p".toList).start).take K).length = K
      ∧ (∀ name ∈ (scanNames script n (StringParser script 0 "p".toList).start).take K,
          name ≠ [])
      ∧ (terminations numprocs).map Send.dest = List.range' 1 (numprocs - 1)
      ∧ (∀ s ∈ terminations numprocs, s.payload = [NUL]) := by
  refine ⟨?_, ?_, ?_, terminations_dest numprocs, terminations_payload numprocs⟩
  · unfold coordinator
    simp only
    rw [linkLoop_scan script recv fuel hs K n 0 _ [] hf hK]
    simp
  · rw [List.length_take]; omega
  · intro name hname
    exact scanNames_ne_nil script n _ name (List.mem_of_mem_take hname)

/-- Witness of C10: two links issued to two workers from a seed page with a rejected
link between the two accepted ones. -/
theorem coordinator_quota_witness :
    docSeed.length + 1 < 2 ^ 31 ∧ 3 ≤ 3
      ∧ 2 ≤ (scanNames docSeed 3 (StringParser docSeed 0 "p".toList).start).length
      ∧ coordinator 3 docSeed (fun i => i + 1) 2 3
          = Outcome.done [⟨1, "wiki/A".toList ++ [NUL]⟩, ⟨2, "wiki/B".toList ++ [NUL]⟩,
              ⟨1, [NUL]⟩, ⟨2, [NUL]⟩]
      ∧ (coordinator 3 docSeed (fun i => i + 1) 2 3
        = Outcome.done
            (linkMessages (fun i => i + 1) 0
                ((scanNames docSeed 3 (StringParser docSeed 0 "p".toList).start).take 2)
              ++ terminations 3)
      ∧ ((scanNames docSeed 3 (StringParser docSeed 0 "p".toList).start).take 2).length = 2
      ∧ (∀ name ∈ (scanNames docSeed 3 (StringParser docSeed 0 "p".toList).start).take 2,
          name ≠ [])
      ∧ (terminations 3).map Send.dest = List.range' 1 (3 - 1)
      ∧ (∀ s ∈ terminations 3, s.payload = [NUL])) :=
  ⟨by decide, by decide, by decide, by decide,
   coordinator_quota docSeed (fun i => i + 1) 2 3 3 3 (by decide) (by decide) (by decide)⟩

/-! ## Facts about `StringParser` -/

theorem occursAt_lt_length (script pat : List Char) (j : Nat) (hp : pat ≠ [])
    (h : occursAt script pat j) : j < script.length := by
  by_contra hj
  unfold occursAt at h
  rw [List.drop_of_length_le (by omega), isPrefixOf_nil_right pat hp] at h
  exact absurd h (by simp)

theorem find_eq_of_firstFrom (script pat : List Char) (pos o : Nat) (hp : pat ≠ [])
    (hs : script.length < npos) (h : firstFrom script pat pos o) :
    find script pat pos = o ∧ o < script.length := by
  obtain ⟨h1, h2, h3⟩ := h
  have hlt := occursAt_lt_length script pat o hp h2
  obtain ⟨hle, hne⟩ := find_le_of_occurs script pat pos o hp hs h1 h2
  have ff := find_found script pat pos hp hne
  refine ⟨?_, hlt⟩
  by_contra hcon
  exact h3 (find script pat pos) (by omega) ff.1 ff.2.2.1

theorem find_eq_npos_of_none (script pat : List Char) (pos : Nat) (hp : pat ≠ [])
    (h : ∀ j, pos ≤ j → ¬ occursAt script pat j) : find script pat pos = npos := by
  rcases find_spec script pat pos hp with ⟨h1, _⟩ | ⟨h1, _, h3, _⟩
  · exact h1
  · exact absurd h3 (h _ h1)

theorem firstFrom_find (script pat : List Char) (pos : Nat) (hp : pat ≠ [])
    (h : find script pat pos ≠ npos) : firstFrom script pat pos (find script pat pos) := by
  have ff := find_found script pat pos hp h
  refine ⟨ff.1, ff.2.2.1, ?_⟩
  intro j hj hpos hocc
  unfold occursAt at hocc
  rw [ff.2.2.2 j hpos hj] at hocc
  exact absurd hocc (by simp)

/-- C11: when `<tagName` does not occur at or after the offset, `StringParser` returns
the all-zero span; when its first occurrence is at `o`, the first `>` at or after `o` at
`g` and the first `</tagName>` at or after `g + 1` at `c`, the span returned has
`start_o = o`, `start = g + 1`, `end = c` and `length = c - (g + 1)`. -/
theorem StringParser_wellformed (script : List Char) (index : Nat) (str : List Char)
    (hs : script.length < npos) :
    ((∀ j, index ≤ j → ¬ occursAt script ('<' :: str) j) →
        StringParser script index str = tag.empty)
      ∧ (∀ o g c, firstFrom script ('<' :: str) index o → firstFrom script ['>'] o g →
          firstFrom script ('<' :: '/' :: (str ++ ['>'])) (g + 1) c →
          (StringParser script index str).start_o = o
            ∧ (StringParser script index str).start = g + 1
            ∧ (StringParser script index str).end_ = c
            ∧ (StringParser script index str).length = c - (g + 1)) := by
  have hn := npos_eq
  constructor
  · intro h
    exact StringParser_none script index str
      (find_eq_npos_of_none script _ index (List.cons_ne_nil _ _) h)
  · intro o g c ho hg hc
    obtain ⟨eo, lo⟩ := find_eq_of_firstFrom script _ index o (List.cons_ne_nil _ _) hs ho
    obtain ⟨eg, lg⟩ := find_eq_of_firstFrom script _ o g (List.cons_ne_nil _ _) hs hg
    obtain ⟨ec, lc⟩ := find_eq_of_firstFrom script _ (g + 1) c (List.cons_ne_nil _ _) hs hc
    have hge := hc.1
    rw [StringParser_found script index str o g (g + 1) c (c - (g + 1))
      (find script ('<' :: str) c) eo (by omega) eg (by unfold sadd; omega) ec (by omega)
      (by unfold ssub; omega) rfl]
    exact ⟨rfl, rfl, rfl, rfl⟩

/-- Witness of C11: the paragraph of `<p>a</p>` is found at 0, and `<x>y` holds no
paragraph. -/
theorem StringParser_wellformed_witness :
    "<p>a</p>".toList.length < npos
      ∧ ((StringParser "<p>a</p>".toList 0 "p".toList).start_o = 0
        ∧ (StringParser "<p>a</p>".toList 0 "p".toList).start = 2 + 1
        ∧ (StringParser "<p>a</p>".toList 0 "p".toList).end_ = 4
        ∧ (StringParser "<p>a</p>".toList 0 "p".toList).length = 4 - (2 + 1))
      ∧ StringParser "<x>y".toList 0 "p".toList = tag.empty :=
  ⟨by decide,
   (StringParser_wellformed "<p>a</p>".toList 0 "p".toList (by decide)).2 0 2 4
     (by decide) (by decide) (by decide),
   (StringParser_wellformed "<x>y".toList 0 "p".toList (by decide)).1
     (by
       intro j _ h
       have hj := occursAt_lt_length _ _ j (by decide) h
       simp only [String.toList, List.length_cons, List.length_nil] at hj
       interval_cases j <;> exact absurd h (by decide))⟩

theorem StringParser_fields (script : List Char) (index : Nat) (str : List Char)
    (h : find script ('<' :: str) index ≠ npos) :
    StringParser script index str
      = ⟨find script ('<' :: str) index,
         sadd (find script ['>'] (find script ('<' :: str) index)) 1,
         (if find script ('<' :: '/' :: (str ++ ['>']))
              (sadd (find script ['>'] (find script ('<' :: str) index)) 1) = npos
          then find script ['<'] (sadd (find script ['>'] (find script ('<' :: str) index)) 1)
          else find script ('<' :: '/' :: (str ++ ['>']))
              (sadd (find script ['>'] (find script ('<' :: str) index)) 1)),
         ssub (if find script ('<' :: '/' :: (str ++ ['>']))
              (sadd (find script ['>'] (find script ('<' :: str) index)) 1) = npos
          then find script ['<'] (sadd (find script ['>'] (find script ('<' :: str) index)) 1)
          else find script ('<' :: '/' :: (str ++ ['>']))
              (sadd (find script ['>'] (find script ('<' :: str) index)) 1))
           (sadd (find script ['>'] (find script ('<' :: str) index)) 1),
         find script ('<' :: str)
           (if find script ('<' :: '/' :: (str ++ ['>']))
              (sadd (find script ['>'] (find script ('<' :: str) index)) 1) = npos
          then find script ['<'] (sadd (find script ['>'] (find script ('<' :: str) index)) 1)
          else find script ('<' :: '/' :: (str ++ ['>']))
              (sadd (find script ['>'] (find script ('<' :: str) index)) 1))⟩ := by
  simp only [StringParser, if_neg h]

theorem find_lt_or_npos (script pat : List Char) (pos : Nat) (hp : pat ≠ []) :
    (pos ≤ find script pat pos ∧ find script pat pos < script.length)
      ∨ find script pat pos = npos := by
  by_cases h : find script pat pos = npos
  · exact Or.inr h
  · have ff := find_found script pat pos hp h
    exact Or.inl ⟨ff.1, ff.2.1⟩

theorem StringParser_ne_empty (script : List Char) (index : Nat) (str : List Char)
    (h : StringParser script index str ≠ tag.empty) :
    find script ('<' :: str) index ≠ npos :=
  fun hc => h (StringParser_none script index str hc)

/-- C12, the claim as stated fails: on `<p>abc</p>` the span of the paragraph is
`⟨0, 3, 6, 3, npos⟩`, whose `next` field is beyond the length 10 of the document (and
on `<p>abc`, which holds no `<` after the content start, the `end` field is `npos`). -/
theorem StringParser_next_beyond_length :
    StringParser "<p>abc</p>".toList 0 "p".toList = ⟨0, 3, 6, 3, npos⟩
      ∧ "<p>abc</p>".toList.length = 10
      ∧ (StringParser "<p>abc".toList 0 "p".toList).end_ = npos
      ∧ ¬ (StringParser "<p>abc</p>".toList 0 "p".toList = tag.empty
          ∨ ((StringParser "<p>abc</p>".toList 0 "p".toList).start
                ≤ (StringParser "<p>abc</p>".toList 0 "p".toList).end_
            ∧ (StringParser "<p>abc</p>".toList 0 "p".toList).start_o
                ≤ "<p>abc</p>".toList.length
            ∧ (StringParser "<p>abc</p>".toList 0 "p".toList).start
                ≤ "<p>abc</p>".toList.length
            ∧ (StringParser "<p>abc</p>".toList 0 "p".toList).end_
                ≤ "<p>abc</p>".toList.length
            ∧ (StringParser "<p>abc</p>".toList 0 "p".toList).next
                ≤ "<p>abc</p>".toList.length)) := by
  decide

/-- C12, amended: `StringParser` returns the all-zero span, or a span with
`start ≤ end` whose `start_o` and `start` are at most the length of the document, whose
`next` is at most that length or is `npos` (no further open tag), and whose `end` is at
most that length whenever a `<` occurs at or after `start`. -/
theorem StringParser_offsets (script : List Char) (index : Nat) (str : List Char)
    (hs : script.length < npos) :
    StringParser script index str = tag.empty
      ∨ ((StringParser script index str).start ≤ (StringParser script index str).end_
        ∧ (StringParser script index str).start_o ≤ script.length
        ∧ (StringParser script index str).start ≤ script.length
        ∧ ((StringParser script index str).next ≤ script.length
            ∨ (StringParser script index str).next = npos)
        ∧ ((∃ j, (StringParser script index str).start ≤ j ∧ occursAt script ['<'] j) →
            (StringParser script index str).end_ ≤ script.length)) := by
  have hn := npos_eq
  by_cases hso : find script ('<' :: str) index = npos
  · exact Or.inl (StringParser_none script index str hso)
  · right
    rw [StringParser_fields script index str hso]
    dsimp only
    have fso := find_found script ('<' :: str) index (List.cons_ne_nil _ _) hso
    generalize find script ('<' :: str) index = so at fso ⊢
    have hst : sadd (find script ['>'] so) 1 ≤ script.length := by
      rcases find_lt_or_npos script ['>'] so (List.cons_ne_nil _ _) with h | h
      · unfold sadd; omega
      · rw [h]; unfold sadd; omega
    generalize sadd (find script ['>'] so) 1 = st at hst ⊢
    have hc := find_lt_or_npos script ('<' :: '/' :: (str ++ ['>'])) st (List.cons_ne_nil _ _)
    have hl := find_lt_or_npos script ['<'] st (List.cons_ne_nil _ _)
    have hle : ∀ j, st ≤ j → occursAt script ['<'] j → find script ['<'] st ≤ j :=
      fun j h1 h2 => (find_le_of_occurs script ['<'] st j (List.cons_ne_nil _ _) hs h1 h2).1
    generalize find script ('<' :: '/' :: (str ++ ['>'])) st = e0 at hc ⊢
    generalize find script ['<'] st = e1 at hl hle ⊢
    have hnx : ∀ e, find script ('<' :: str) e ≤ script.length
        ∨ find script ('<' :: str) e = npos := by
      intro e
      rcases find_lt_or_npos script ('<' :: str) e (List.cons_ne_nil _ _) with h | h
      · exact Or.inl (by omega)
      · exact Or.inr h
    by_cases he : e0 = npos
    · rw [if_pos he]
      refine ⟨by omega, by omega, hst, hnx e1, ?_⟩
      rintro ⟨j, hj1, hj2⟩
      have := hle j hj1 hj2
      have := occursAt_lt_length script ['<'] j (List.cons_ne_nil _ _) hj2
      omega
    · rw [if_neg he]
      refine ⟨by omega, by omega, hst, hnx e0, ?_⟩
      intro _
      omega

/-- Witness of C12 (amended) on `<p>abc</p>`. -/
theorem StringParser_offsets_witness :
    "<p>abc</p>".toList.length < npos
      ∧ (StringParser "<p>abc</p>".toList 0 "p".toList = tag.empty
        ∨ ((StringParser "<p>abc</p>".toList 0 "p".toList).start
              ≤ (StringParser "<p>abc</p>".toList 0 "p".toList).end_
          ∧ (StringParser "<p>abc</p>".toList 0 "p".toList).start_o
              ≤ "<p>abc</p>".toList.length
          ∧ (StringParser "<p>abc</p>".toList 0 "p".toList).start
              ≤ "<p>abc</p>".toList.length
          ∧ ((StringParser "<p>abc</p>".toList 0 "p".toList).next
                ≤ "<p>abc</p>".toList.length
              ∨ (StringParser "<p>abc</p>".toList 0 "p".toList).next = npos)
          ∧ ((∃ j, (StringParser "<p>abc</p>".toList 0 "p".toList).start ≤ j
                ∧ occursAt "<p>abc</p>".toList ['<'] j) →
              (StringParser "<p>abc</p>".toList 0 "p".toList).end_
                ≤ "<p>abc</p>".toList.length))) :=
  ⟨by decide, StringParser_offsets "<p>abc</p>".toList 0 "p".toList (by decide)⟩

/-- C13: on `<p>abc` the close tag is absent and no `<` occurs at or after the content
start 3; the `end` field returned is `npos`, not the length 6 of the document. -/
theorem StringParser_fallback_without_lt :
    StringParser "<p>abc".toList 0 "p".toList = ⟨0, 3, npos, npos - 3, npos⟩
      ∧ find "<p>abc".toList "</p>".toList 3 = npos
      ∧ find "<p>abc".toList ['<'] 3 = npos
      ∧ "<p>abc".toList.length = 6
      ∧ (StringParser "<p>abc".toList 0 "p".toList).end_ ≠ "<p>abc".toList.length := by
  decide

/-- C16, the claim as stated fails: on `<p>a</p>` the any-tag span found from 0 is
`⟨0, 3, 4, 1, 4⟩`, whose `next` equals its `end`: it is not strictly after it. -/
theorem StringParser_next_equals_end :
    StringParser "<p>a</p>".toList 0 [] = ⟨0, 3, 4, 1, 4⟩
      ∧ StringParser "<p>a</p>".toList 0 [] ≠ tag.empty
      ∧ ¬ ((StringParser "<p>a</p>".toList 0 []).end_
            < (StringParser "<p>a</p>".toList 0 []).next) := by
  decide

/-- C16, amended: when `StringParser` returns a non-empty span, its `next` is the offset
of the first occurrence of `<tagName` at or after its `end` (it may equal `end`), or is
`npos` when `<tagName` does not occur at or after `end`. -/
theorem StringParser_next (script : List Char) (index : Nat) (str : List Char)
    (hs : script.length < npos) (h : StringParser script index str ≠ tag.empty) :
    firstFrom script ('<' :: str) (StringParser script index str).end_
        (StringParser script index str).next
      ∨ ((StringParser script index str).next = npos
        ∧ ∀ j, (StringParser script index str).end_ ≤ j →
            ¬ occursAt script ('<' :: str) j) := by
  have hso := StringParser_ne_empty script index str h
  rw [StringParser_fields script index str hso]
  dsimp only
  generalize (if find script ('<' :: '/' :: (str ++ ['>']))
      (sadd (find script ['>'] (find script ('<' :: str) index)) 1) = npos
    then find script ['<'] (sadd (find script ['>'] (find script ('<' :: str) index)) 1)
    else find script ('<' :: '/' :: (str ++ ['>']))
      (sadd (find script ['>'] (find script ('<' :: str) index)) 1)) = e
  by_cases hn : find script ('<' :: str) e = npos
  · right
    refine ⟨hn, ?_⟩
    intro j hj hocc
    rcases find_spec script ('<' :: str) e (List.cons_ne_nil _ _) with ⟨_, h2⟩ | ⟨_, h2, _⟩
    · unfold occursAt at hocc
      rw [h2 j hj] at hocc
      exact absurd hocc (by simp)
    · omega
  · exact Or.inl (firstFrom_find script ('<' :: str) e (List.cons_ne_nil _ _) hn)

/-- Witness of C16 (amended) on the any-tag span of `<p>a</p>`. -/
theorem StringParser_next_witness :
    "<p>a</p>".toList.length < npos ∧ StringParser "<p>a</p>".toList 0 [] ≠ tag.empty
      ∧ (firstFrom "<p>a</p>".toList ('<' :: []) (StringParser "<p>a</p>".toList 0 []).end_
            (StringParser "<p>a</p>".toList 0 []).next
        ∨ ((StringParser "<p>a</p>".toList 0 []).next = npos
          ∧ ∀ j, (StringParser "<p>a</p>".toList 0 []).end_ ≤ j →
              ¬ occursAt "<p>a</p>".toList ('<' :: []) j)) :=
  ⟨by decide, by decide, StringParser_next "<p>a</p>".toList 0 [] (by decide) (by decide)⟩

/-! ## Further concrete runs -/

/-- C15: on the one-link page `<a href="/wiki/A">a</a>` the first call, from cursor 0,
returns the position 16; the next call, from cursor 16 (at most the length 23), finds
no `href`, `find` returns `npos`, `npos + 1` wraps to 0 and the position returned is
that of the first quote of the document, 8, which is less than the cursor 16. -/
theorem WikiCrawler_cursor_moves_back :
    WikiCrawler "<a href=\"/wiki/A\">a</a>".toList 0 = some ⟨"wiki/A".toList, 16⟩
      ∧ WikiCrawler "<a href=\"/wiki/A\">a</a>".toList 16 = some ⟨[], 8⟩
      ∧ 16 ≤ "<a href=\"/wiki/A\">a</a>".toList.length
      ∧ find "<a href=\"/wiki/A\">a</a>".toList "href".toList 16 = npos := by
  decide

/-- C17: when the entity is the last thing in the run, `WriteFile` copies it literally:
for the paragraph of `<p>A&amp;</p>` it appends `A&amp;`, and for the paragraph of
`<p>&amp;</p>` it appends `&amp;` (the loop test `nbs_end < _tag_.end` fails when the
`;` is the last character of the run). -/
theorem WriteFile_trailing_entity_literal (junk : Nat → Char) :
    StringParser "<p>A&amp;</p>".toList 0 "p".toList = ⟨0, 3, 9, 6, npos⟩
      ∧ WriteFile junk "<p>A&amp;</p>".toList ⟨0, 3, 9, 6, npos⟩ = some "A&amp;".toList
      ∧ StringParser "<p>&amp;</p>".toList 0 "p".toList = ⟨0, 3, 8, 5, npos⟩
      ∧ WriteFile junk "<p>&amp;</p>".toList ⟨0, 3, 8, 5, npos⟩ = some "&amp;".toList :=
  ⟨by decide, rfl, by decide, rfl⟩

theorem order_body (junk : Nat → Nat → Char) (out : List Char) (k : Nat) :
    ParseHTML.body junk docOrder ⟨0, out, k⟩
        = some (⟨0, 3, 4, 1, 4⟩, ⟨4, out ++ ['A'], k + 1⟩)
      ∧ ParseHTML.body junk docOrder ⟨4, out, k⟩
        = some (⟨4, 8, 9, 1, 9⟩, ⟨9, out ++ ['B'], k + 1⟩)
      ∧ ParseHTML.body junk docOrder ⟨9, out, k⟩
        = some (⟨9, 12, 13, 1, 13⟩, ⟨13, out ++ ['C'], k + 1⟩)
      ∧ ParseHTML.body junk docOrder ⟨13, out, k⟩
        = some (⟨13, 17, 18, 1, 18⟩, ⟨18, out ++ ['D'], k + 1⟩) :=
  ⟨body_write junk docOrder 0 k out ['A'] ⟨0, 3, 4, 1, 4⟩ tag.empty tag.empty
      (by decide) (by decide) (by decide) (by decide) rfl,
   body_write junk docOrder 4 k out ['B'] ⟨4, 8, 9, 1, 9⟩ tag.empty tag.empty
      (by decide) (by decide) (by decide) (by decide) rfl,
   body_write junk docOrder 9 k out ['C'] ⟨9, 12, 13, 1, 13⟩ tag.empty tag.empty
      (by decide) (by decide) (by decide) (by decide) rfl,
   body_write junk docOrder 13 k out ['D'] ⟨13, 17, 18, 1, 18⟩ tag.empty tag.empty
      (by decide) (by decide) (by decide) (by decide) rfl⟩

/-- C18: on `<p>A</p>B<p>C</p>D<x>` `ParseHTML` terminates with the output `ABCDA`: after
the last paragraph the scan position is reset to 0 and the run `A` of the first tag is
written a second time, after the runs `B`, `C` and `D` that follow it in the
document. -/
theorem ParseHTML_first_run_repeated (junk : Nat → Nat → Char) (m : Nat) :
    ParseHTML (m + 4) junk "<p>A</p>B<p>C</p>D<x>".toList = Outcome.done "ABCDA".toList := by
  have h1 : ParseHTML.inner junk docOrder ⟨0, 3, 4, 1, 9⟩ (m + 3) ⟨0, [], 0⟩
      = Outcome.done ⟨9, ['A', 'B'], 2⟩ := by
    rw [inner_continue junk docOrder _ (m + 2) _ _ _ (order_body junk [] 0).1 (by decide),
      inner_exit junk docOrder _ (m + 1) _ _ _ (order_body junk _ 1).2.1 (by decide)]
    rfl
  have h2 : ParseHTML.inner junk docOrder ⟨9, 12, 13, 1, npos⟩ (m + 2) ⟨9, ['A', 'B'], 2⟩
      = Outcome.done ⟨18, ['A', 'B', 'C', 'D'], 4⟩ := by
    rw [inner_continue junk docOrder _ (m + 1) _ _ _ (order_body junk _ 2).2.2.1 (by decide),
      inner_exit junk docOrder _ m _ _ _ (order_body junk _ 3).2.2.2 (by decide)]
    rfl
  have h3 : ParseHTML.inner junk docOrder tag.empty (m + 1) ⟨0, ['A', 'B', 'C', 'D'], 4⟩
      = Outcome.done ⟨4, ['A', 'B', 'C', 'D', 'A'], 5⟩ := by
    rw [inner_exit junk docOrder _ m _ _ _ (order_body junk _ 4).1 (by decide)]
    rfl
  show ParseHTML.outer junk docOrder (m + 4) ⟨0, [], 0⟩ = _
  rw [outer_continue junk docOrder ⟨0, 3, 4, 1, 9⟩ (m + 3) 0 0 [] _ (by decide) h1
      (by decide),
    outer_continue junk docOrder ⟨9, 12, 13, 1, npos⟩ (m + 2) 9 2 _ _ (by decide) h2
      (by decide)]
  exact outer_exit junk docOrder tag.empty (m + 1) 18 4 _ _ (by decide) h3 rfl

/-! ## Facts about `WriteFile` -/

theorem WriteFile_loop_exit (script : List Char) (t : tag) (fuel : Nat) (buff : List Char)
    (buff_pos start_write nbs_start nbs_end : Nat)
    (h : ¬ (nbs_start < t.end_ ∧ nbs_end < t.end_)) :
    WriteFile.loop script t (fuel + 1) buff buff_pos start_write nbs_start nbs_end
      = some (buff, buff_pos, start_write) := by
  rw [WriteFile.loop, if_neg h]

theorem getElem_of_singleton_prefix (script : List Char) (c : Char) (f : Nat)
    (hf : f < script.length) (h : [c].isPrefixOf (script.drop f) = true) :
    script[f] = c := by
  rw [List.drop_eq_getElem_cons hf] at h
  simp [List.isPrefixOf] at h
  exact h.symm

theorem find_not_lt_of_not_mem (script : List Char) (c : Char) (s e : Nat)
    (hs : script.length < npos) (he : e ≤ script.length)
    (h : c ∉ (script.drop s).take (e - s)) : ¬ find script [c] s < e := by
  intro hlt
  have hne : find script [c] s ≠ npos := by omega
  have ff := find_found script [c] s (List.cons_ne_nil _ _) hne
  have hc := getElem_of_singleton_prefix script c _ ff.2.1 ff.2.2.1
  apply h
  have hb : find script [c] s - s < ((script.drop s).take (e - s)).length := by
    rw [List.length_take, List.length_drop]
    omega
  have : ((script.drop s).take (e - s))[find script [c] s - s] = c := by
    rw [List.getElem_take, List.getElem_drop]
    simp only [show s + (find script [c] s - s) = find script [c] s by omega]
    exact hc
  rw [← this]
  exact List.getElem_mem hb

theorem set_append_length (l r : List Char) (x : Char) :
    (l ++ r).set l.length x = l ++ r.set 0 x := by
  induction l with
  | nil => rfl
  | cons a as ih => simp [List.set, ih]

theorem takeWhile_append_stop (p : Char → Bool) (l r : List Char) (x : Char)
    (hl : ∀ c ∈ l, p c = true) (hx : p x = false) : (l ++ x :: r).takeWhile p = l := by
  induction l with
  | nil => simp [List.takeWhile, hx]
  | cons a as ih =>
    have ha : p a = true := hl a (List.mem_cons_self a as)
    have ih1 := ih (fun c hc => hl c (List.mem_cons_of_mem a hc))
    rw [List.cons_append, List.takeWhile_cons, ha]
    simp only [if_true]
    rw [ih1]

/-- C19: for a tag span with `start < end ≤ script.length` and `length = end - start`
whose run holds no `&` and no NUL (the buffer fitting in memory beside the script),
`WriteFile` appends exactly the run `script[start .. end)`; and for every span with
`length = 0` it appends nothing. -/
theorem WriteFile_verbatim (junk : Nat → Char) (script : List Char) (t : tag)
    (hlt : t.start < t.end_) (hend : t.end_ ≤ script.length)
    (hlen : t.length = t.end_ - t.start)
    (hmem : script.length + (t.length + 1) < 2 ^ 64)
    (hamp : '&' ∉ (script.drop t.start).take (t.end_ - t.start))
    (hnul : NUL ∉ (script.drop t.start).take (t.end_ - t.start)) :
    WriteFile junk script t = some ((script.drop t.start).take (t.end_ - t.start))
      ∧ ∀ t0 : tag, t0.length = 0 → WriteFile junk script t0 = some [] := by
  have hn := npos_eq
  constructor
  · have hs : script.length < npos := by omega
    have hexit := WriteFile_loop_exit script t (script.length + 1)
      ((List.range (t.length + 1)).map junk) 0 t.start (find script ['&'] t.start)
      (sadd (find script [';'] (find script ['&'] t.start)) 1)
      (fun h => find_not_lt_of_not_mem script '&' t.start t.end_ hs hend hamp h.1)
    have hsub : ssub t.end_ t.start = t.end_ - t.start := ssub_eq _ _ (by omega) (by omega)
    have hrl : ((script.drop t.start).take (t.end_ - t.start)).length = t.length := by
      rw [List.length_take, List.length_drop]
      omega
    obtain ⟨y, hy⟩ : ∃ y, ((List.range (t.length + 1)).map junk).drop t.length = [y] := by
      apply List.length_eq_one.mp
      rw [List.length_drop, List.length_map, List.length_range]
      omega
    have hcopy : copy script ((List.range (t.length + 1)).map junk) 0 (t.end_ - t.start)
        t.start = some ((script.drop t.start).take (t.end_ - t.start) ++ [y]) := by
      unfold copy
      rw [if_neg (by omega)]
      simp only
      rw [if_neg (by rw [hrl, List.length_map, List.length_range]; omega)]
      rw [hrl, Nat.zero_add, hy]
      rfl
    unfold WriteFile
    rw [if_neg (by omega), if_neg (by omega)]
    simp only
    rw [hexit]
    simp only
    rw [hsub, hcopy]
    simp only
    rw [← hrl, set_append_length]
    have hp : ∀ c ∈ (script.drop t.start).take (t.end_ - t.start), (c != NUL) = true := by
      intro c hc
      have : c ≠ NUL := fun e => hnul (e ▸ hc)
      simpa using this
    exact congrArg some (takeWhile_append_stop _ _ [] NUL hp (by simp))
  · intro t0 h0
    unfold WriteFile
    rw [if_pos h0]

/-- Witness of C19: the run `abc` of the paragraph of `<p>abc</p>`. -/
theorem WriteFile_verbatim_witness :
    WriteFile (fun _ => 'x') "<p>abc</p>".toList ⟨0, 3, 6, 3, npos⟩ = some "abc".toList
      ∧ (WriteFile (fun _ => 'x') "<p>abc</p>".toList ⟨0, 3, 6, 3, npos⟩
            = some (("<p>abc</p>".toList.drop 3).take (6 - 3))
          ∧ ∀ t0 : tag, t0.length = 0 →
              WriteFile (fun _ => 'x') "<p>abc</p>".toList t0 = some []) :=
  ⟨by decide,
   WriteFile_verbatim (fun _ => 'x') "<p>abc</p>".toList ⟨0, 3, 6, 3, npos⟩ (by decide)
     (by decide) (by decide) (by decide) (by decide) (by decide)⟩

/-! ## The emphasis branch of `ParseHTML` -/

theorem isPrefixOf_head (a : Char) (as l : List Char) (h : (a :: as).isPrefixOf l = true) :
    [a].isPrefixOf l = true := by
  cases l with
  | nil => exact absurd h (by simp [List.isPrefixOf])
  | cons x xs =>
    simp only [List.isPrefixOf, Bool.and_eq_true] at h ⊢
    exact ⟨h.1, trivial⟩

/-- In a document without `</>` the guard of line 130 is false at every scan position. -/
theorem emphasis_guard_false (script : List Char) (pos : Nat) (hs : script.length < npos)
    (hno : ∀ j, ¬ occursAt script "</>".toList j) :
    ¬ ((StringParser script (StringParser script pos []).start "i".toList).start ≠ 0
        ∧ (StringParser script (StringParser script pos []).start "i".toList).start
            < (StringParser script pos []).end_) := by
  have hn := npos_eq
  rintro ⟨h0, hlt⟩
  by_cases hso : find script ('<' :: []) pos = npos
  · rw [StringParser_none script pos [] hso] at hlt
    exact absurd hlt (Nat.not_lt_zero _)
  · rw [StringParser_fields script pos [] hso] at h0 hlt
    dsimp only at h0 hlt
    generalize sadd (find script ['>'] (find script ['<'] pos)) 1 = st at h0 hlt
    have hcl : find script ('<' :: '/' :: ([] ++ ['>'])) st = npos :=
      find_eq_npos_of_none script _ st (List.cons_ne_nil _ _) (fun j _ => hno j)
    rw [if_pos hcl] at hlt
    by_cases hi : find script ('<' :: "i".toList) st = npos
    · rw [StringParser_none script st "i".toList hi] at h0
      exact h0 rfl
    · rw [StringParser_fields script st "i".toList hi] at h0 hlt
      dsimp only at h0 hlt
      have fi := find_found script ('<' :: "i".toList) st (List.cons_ne_nil _ _) hi
      have hocc : occursAt script ['<'] (find script ('<' :: "i".toList) st) :=
        isPrefixOf_head _ _ _ fi.2.2.1
      have hle := find_le_of_occurs script ['<'] st _ (List.cons_ne_nil _ _) hs fi.1 hocc
      rcases find_lt_or_npos script ['>'] (find script ('<' :: "i".toList) st)
        (List.cons_ne_nil _ _) with hg | hg
      · rw [sadd_eq _ _ (by omega)] at hlt
        omega
      · rw [hg] at h0
        exact h0 (by decide)

theorem body_eq_bodyPlain (junk : Nat → Nat → Char) (script : List Char) (st : PState)
    (hs : script.length < npos) (hno : ∀ j, ¬ occursAt script "</>".toList j) :
    ParseHTML.body junk script st = ParseHTML.bodyPlain junk script st := by
  have hg := emphasis_guard_false script st.script_pos hs hno
  simp only [ParseHTML.body, ParseHTML.bodyPlain, hg, if_false, List.append_nil]

theorem inner_eq_innerPlain (junk : Nat → Nat → Char) (script : List Char) (paragraph : tag)
    (hs : script.length < npos) (hno : ∀ j, ¬ occursAt script "</>".toList j) :
    ∀ (fuel : Nat) (st : PState),
      ParseHTML.inner junk script paragraph fuel st
        = ParseHTML.innerPlain junk script paragraph fuel st := by
  intro fuel
  induction fuel with
  | zero => intro st; rfl
  | succ n ih =>
    intro st
    rw [ParseHTML.inner, ParseHTML.innerPlain, body_eq_bodyPlain junk script st hs hno]
    cases ParseHTML.bodyPlain junk script st with
    | none => rfl
    | some p =>
      obtain ⟨nt, st1⟩ := p
      simp only
      rw [ih st1]

theorem outer_eq_outerPlain (junk : Nat → Nat → Char) (script : List Char)
    (hs : script.length < npos) (hno : ∀ j, ¬ occursAt script "</>".toList j) :
    ∀ (fuel : Nat) (st : PState),
      ParseHTML.outer junk script fuel st = ParseHTML.outerPlain junk script fuel st := by
  intro fuel
  induction fuel with
  | zero => intro st; rfl
  | succ n ih =>
    intro st
    rw [ParseHTML.outer, ParseHTML.outerPlain]
    rw [inner_eq_innerPlain junk script _ hs hno]
    cases ParseHTML.innerPlain junk script (StringParser script st.script_pos "p".toList) n
        ⟨(StringParser script st.script_pos "p".toList).start_o, st.out, st.iter⟩ with
    | done st1 =>
      simp only
      rw [ih st1]
    | fault => rfl
    | fuelOut => rfl

/-- C20: in a document that does not contain `</>` the guard
`i.start != 0 && i.start < next_tag.end` of line 130 is false at every scan position,
so the emphasis write is never made, and `ParseHTML` gives the same outcome as the
procedure with that write removed, for every iteration budget and buffer content. -/
theorem ParseHTML_emphasis_never_written (script : List Char) (hs : script.length < npos)
    (hno : ∀ j, ¬ occursAt script "</>".toList j) :
    (∀ pos,
        ¬ ((StringParser script (StringParser script pos []).start "i".toList).start ≠ 0
          ∧ (StringParser script (StringParser script pos []).start "i".toList).start
              < (StringParser script pos []).end_))
      ∧ ∀ fuel junk, ParseHTML fuel junk script = ParseHTMLPlain fuel junk script :=
  ⟨fun pos => emphasis_guard_false script pos hs hno,
   fun fuel junk => outer_eq_outerPlain junk script hs hno fuel ⟨0, [], 0⟩⟩

theorem docKept_no_empty_close : ∀ j, ¬ occursAt docKept "</>".toList j := by
  intro j h
  have hj := occursAt_lt_length _ _ j (by decide) h
  simp only [docKept, String.toList, List.length_cons, List.length_nil] at hj
  interval_cases j <;> exact absurd h (by decide)

/-- Witness of C20 on `<p><span><i>Kept</i></span></p>`, where the decorative case is
entered at position 3 and an `<i>` tag lies inside the span. -/
theorem ParseHTML_emphasis_never_written_witness :
    docKept.length < npos
      ∧ ParseHTML 4 (fun _ _ => 'x') docKept = Outcome.done []
      ∧ ParseHTMLPlain 4 (fun _ _ => 'x') docKept = Outcome.done []
      ∧ ((∀ pos,
          ¬ ((StringParser docKept (StringParser docKept pos []).start "i".toList).start ≠ 0
            ∧ (StringParser docKept (StringParser docKept pos []).start "i".toList).start
                < (StringParser docKept pos []).end_))
        ∧ ∀ fuel junk, ParseHTML fuel junk docKept = ParseHTMLPlain fuel junk docKept) :=
  ⟨by decide, by decide, by decide,
   ParseHTML_emphasis_never_written docKept (by decide) docKept_no_empty_close⟩

end Scraper
